import Mathlib

/-!
Verification of the proxima robotics library core against its specification.

The development shallowly embeds the Rust sources:
  * `src/robot_modules/robot_model_module.rs` (kinematic graph),
  * `src/robot_modules/robot_state_module.rs` (robot states),
  * `src/robot_modules/robot_geometric_shape_module.rs` (collision preprocessing),
  * `src/utils/utils_se3/optima_se3_pose.rs` and `optima_rotation.rs` (SE(3) algebra).

Scalar joint values and distances are modelled as rationals (the Rust code uses
f64, but every claim proved here concerns pure gather/scatter, control flow, or
exact comparisons, never rounding).  Rust `Vec` indexing that can panic, and
unwraps of `None`, are modelled explicitly via a `PanicOr` result; loops whose
termination depends on the graph being acyclic take an explicit fuel argument
(fuel exhaustion models divergence of the Rust loop).
-/

deriving instance DecidableEq for Except

namespace Optima

/-- Outcome of a Rust computation that can panic (out-of-bounds indexing,
`Option::unwrap` on `None`, nalgebra dimension mismatch). -/
inductive PanicOr (α : Type) where
  | panicked : PanicOr α
  | ok (val : α) : PanicOr α
deriving DecidableEq, Repr

/-- Embedding of `OptimaError` (`utils_errors` is not part of the extracted
sources; the constructors mirror the constructor functions called at the
embedded call sites: `new_generic_error_str`, `new_idx_out_of_bound_error`,
`new_robot_state_vec_wrong_size_error`).  Message strings are elided. -/
inductive OptimaError where
  | genericError : OptimaError
  | idxOutOfBound (idx bound : ℕ) : OptimaError
  | robotStateVecWrongSize (len expected : ℕ) : OptimaError
deriving DecidableEq, Repr

/-- Embedding of `Link` (`utils_robot/link.rs` is not among the extracted
sources).  Modelled from the spec: "identity (name, integer index), presence
flag, preceding link index (parent; `None` for the root), preceding joint
index, ordered set of child link indices".  Only the fields read by the
embedded functions are kept; the index is the position in the module's list. -/
structure Link where
  preceding_link_idx : Option ℕ
  preceding_joint_idx : Option ℕ
  present : Bool
deriving DecidableEq, Repr

instance : Inhabited Link := ⟨⟨none, none, true⟩⟩

/-- Embedding of `Joint` (`utils_robot/joint.rs` is not among the extracted
sources).  Modelled from the spec: "identity, presence flag, one or more joint
axes, preceding/child link index, mobility classification".  `num_dofs` stands
for `Joint::num_dofs()` (number of non-fixed axes). -/
structure Joint where
  preceding_link_idx : Option ℕ
  child_link_idx : Option ℕ
  num_dofs : ℕ
  present : Bool
deriving DecidableEq, Repr

instance : Inhabited Joint := ⟨⟨none, none, 0, true⟩⟩

/-- Embedding of the `RobotModelModule` fields used by the embedded functions.
The derived caches (`link_tree_traversal_layers`, `link_chains`,
`preceding_actuated_joint_idxs`) are modelled as functions of the stored
links/joints below, mirroring the setters that compute them. -/
structure RobotModelModule where
  links : List Link
  joints : List Joint
  world_link_idx : ℕ
  robot_base_link_idx : ℕ
deriving DecidableEq, Repr

/-- `links[i].preceding_link_idx()` as read through the module's link list
(`none` also when `i` is out of range). -/
def linkParent (links : List Link) (i : ℕ) : Option ℕ :=
  (links.get? i).bind Link.preceding_link_idx

/-- Embedding of `RobotModelModule::get_preceding_actuated_joint_idx`
(robot_model_module.rs lines 349-368).  The Rust body is a `loop`, but every
branch of its body returns: a missing preceding joint returns `None`; a
preceding joint with `num_dofs > 0` returns its index; otherwise the code
checks `preceding_link_idx.is_some()` and returns `None` when it holds, and on
the remaining path calls `.unwrap()` on that same `None`, which panics.  Hence
the loop never runs a second iteration and the embedding needs no recursion. -/
def get_preceding_actuated_joint_idx (links : List Link) (joints : List Joint)
    (link_idx : ℕ) : PanicOr (Option ℕ) :=
  match links.get? link_idx with
  | none => .panicked
  | some l =>
    match l.preceding_joint_idx with
    | none => .ok none
    | some j =>
      match joints.get? j with
      | none => .panicked
      | some jt =>
        if 0 < jt.num_dofs then .ok (some j)
        else
          match jt.preceding_link_idx with
          | some _ => .ok none
          | none => .panicked

/-- Modelled from the spec: the intended walk that
`get_preceding_actuated_joint_idx` documents ("Returns the closest preceding
actuated joint index (i.e., a joint that has >0 DOFs) behind the given link"),
per spec step 6: "for each link, walk upward through preceding joints until
one with ≥1 DOF is found, or the root is reached with none found (→ None)".
Fuel bounds the walk; `links.length` suffices on acyclic graphs. -/
def preceding_actuated_joint_idx_spec (links : List Link) (joints : List Joint) :
    ℕ → ℕ → Option ℕ
  | 0, _ => none
  | fuel + 1, link_idx =>
    match (links.get? link_idx).bind Link.preceding_joint_idx with
    | none => none
    | some j =>
      match joints.get? j with
      | none => none
      | some jt =>
        if 0 < jt.num_dofs then some j
        else
          match jt.preceding_link_idx with
          | some p => preceding_actuated_joint_idx_spec links joints fuel p
          | none => none

/-- Embedding of the root scan inside `RobotModelModule::set_world_link_idx_manual`
(lines 298-307): the first link index whose `preceding_link_idx` is `None`. -/
def findRoot (links : List Link) : Option ℕ :=
  (List.range links.length).find? (fun i => (linkParent links i).isNone)

/-- Embedding of `RobotModelModule::set_world_link_idx_manual` (lines 298-307).
The scan sets both `world_link_idx` and `robot_base_link_idx` to the first
parentless link and returns; when every link has a parent the loop falls
through and the module is left unchanged.  The function has no error path. -/
def set_world_link_idx_manual (m : RobotModelModule) : RobotModelModule :=
  match findRoot m.links with
  | some i => { m with world_link_idx := i, robot_base_link_idx := i }
  | none => m

/-- Embedding of the loop body of `RobotModelModule::assign_link_chain`
(lines 157-171).  The walk starts from `out_vec = [to_idx]`, repeatedly
prepends the head's preceding link, stores the path once the prepended link
equals `from_idx`, and returns without storing when a parentless link is
reached.  `none` means no value was stored (including fuel exhaustion, which
models divergence of the Rust loop on cyclic parent pointers, and the
out-of-range indexing panic). -/
def assign_link_chain_loop (links : List Link) (from_idx : ℕ) :
    ℕ → List ℕ → Option (List ℕ)
  | 0, _ => none
  | fuel + 1, out_vec =>
    let curr_link_idx := out_vec.headI
    match linkParent links curr_link_idx with
    | none => none
    | some p =>
      if p = from_idx then some (p :: out_vec)
      else assign_link_chain_loop links from_idx fuel (p :: out_vec)

/-- The cell `link_chains[from][to]` after `assign_all_link_chains`
(lines 147-156): the stored walk result, or the `SquareArray2D` default cell
(modelled from the spec: "the ordered path of link indices from a to b, empty
if unreachable") when the walk returned without storing. -/
def link_chain_cell (links : List Link) (from_idx to_idx : ℕ) : List ℕ :=
  (assign_link_chain_loop links from_idx (links.length + 1) [to_idx]).getD []

/-- Embedding of `RobotModelModule::get_link_chain` (lines 516-526): bound
checks on both indices, then the stored cell with the empty path reported as
`none`. -/
def get_link_chain (m : RobotModelModule) (from_link_idx to_link_idx : ℕ) :
    Except OptimaError (Option (List ℕ)) :=
  if m.links.length ≤ from_link_idx then
    .error (.idxOutOfBound from_link_idx m.links.length)
  else if m.links.length ≤ to_link_idx then
    .error (.idxOutOfBound to_link_idx m.links.length)
  else
    let res := link_chain_cell m.links from_link_idx to_link_idx
    if res = [] then .ok none else .ok (some res)

/-- The per-link condition of the loop in
`RobotModelModule::set_link_tree_traversal_info` (lines 319-320): the link is
present, has a preceding link, and that preceding link lies in the previous
layer. -/
def nextLayerPred (links : List Link) (prev : List ℕ) (i : ℕ) : Bool :=
  match links.get? i with
  | some l =>
    l.present &&
      (match l.preceding_link_idx with
       | some p => decide (p ∈ prev)
       | none => false)
  | none => false

/-- One pass of the loop in `RobotModelModule::set_link_tree_traversal_info`
(lines 310-336): the links (in index order) satisfying the condition above. -/
def nextLayer (links : List Link) (prev : List ℕ) : List ℕ :=
  (List.range links.length).filter (nextLayerPred links prev)

/-- The layer-accumulation loop of `set_link_tree_traversal_info`: append the
next layer while it is nonempty (`change_on_this_loop`), stop otherwise.
`prev` mirrors `link_tree_traversal_layers[curr_layer - 1]`.  Fuel exhaustion
models divergence of the Rust loop (possible on cyclic parent pointers). -/
def buildLayers (links : List Link) : ℕ → List (List ℕ) → List ℕ → List (List ℕ)
  | 0, acc, _ => acc
  | fuel + 1, acc, prev =>
    let nl := nextLayer links prev
    if nl = [] then acc else buildLayers links fuel (acc ++ [nl]) nl

/-- Embedding of `RobotModelModule::set_link_tree_traversal_info`
(lines 310-336) as the computed `link_tree_traversal_layers` value: the layers
start from `[[world_link_idx]]` and are grown by `buildLayers`.  The fuel
`links.length + 1` is never exhausted on tree-shaped graphs. -/
def link_tree_traversal_layers (links : List Link) (world : ℕ) : List (List ℕ) :=
  buildLayers links (links.length + 1) [[world]] [world]

/-- Embedding of `RobotModelModule::set_link_as_not_present` (lines 438-460):
bound check, the world-link early return, then the link's present flag is
cleared and every joint whose preceding link is the given link is marked not
present (the cascade loop over joint indices). -/
def set_link_as_not_present (m : RobotModelModule) (link_idx : ℕ) :
    Except OptimaError RobotModelModule :=
  if m.links.length ≤ link_idx then
    .error (.idxOutOfBound link_idx m.links.length)
  else if m.world_link_idx = link_idx then .ok m
  else
    .ok { m with
      links := m.links.set link_idx { m.links.getD link_idx default with present := false },
      joints := (List.range m.joints.length).foldl
        (fun js i =>
          if (js.getD i default).preceding_link_idx = some link_idx then
            js.set i { js.getD i default with present := false }
          else js)
        m.joints }

/-- Embedding of `RobotModelModule::set_link_as_present` (lines 470-488):
bound check, then the link's present flag is set and every joint whose
preceding link is the given link is marked present.  There is no world-link
early return in this direction. -/
def set_link_as_present (m : RobotModelModule) (link_idx : ℕ) :
    Except OptimaError RobotModelModule :=
  if m.links.length ≤ link_idx then
    .error (.idxOutOfBound link_idx m.links.length)
  else
    .ok { m with
      links := m.links.set link_idx { m.links.getD link_idx default with present := true },
      joints := (List.range m.joints.length).foldl
        (fun js i =>
          if (js.getD i default).preceding_link_idx = some link_idx then
            js.set i { js.getD i default with present := true }
          else js)
        m.joints }

/-- A presence mutation as issued by a caller of the two setters above. -/
inductive PresenceOp where
  | notPresent (idx : ℕ)
  | present (idx : ℕ)
deriving DecidableEq, Repr

/-- Apply one presence mutation; an error leaves the module unchanged (both
setters return before mutating anything on their error path). -/
def applyPresenceOp (m : RobotModelModule) : PresenceOp → RobotModelModule
  | .notPresent i =>
    match set_link_as_not_present m i with
    | .ok m' => m'
    | .error _ => m
  | .present i =>
    match set_link_as_present m i with
    | .ok m' => m'
    | .error _ => m

/-- Apply a sequence of presence mutations. -/
def applyPresenceOps (m : RobotModelModule) (ops : List PresenceOp) : RobotModelModule :=
  ops.foldl applyPresenceOp m

/-- The world link's present flag reads `true`. -/
def worldLinkPresent (m : RobotModelModule) : Prop :=
  ∀ l, m.links.get? m.world_link_idx = some l → l.present = true

/-- Embedding of `JointAxis` (`utils_robot/joint.rs` is not among the
extracted sources).  Modelled from the spec: "belongs to exactly one joint;
carries a fixed/free flag and, if fixed, a fixed scalar value".
`JointAxis::is_fixed()` is `fixed_value.isSome`. -/
structure JointAxis where
  joint_idx : ℕ
  fixed_value : Option ℚ
deriving DecidableEq, Repr

/-- `JointAxis::is_fixed()`. -/
def JointAxis.is_fixed (a : JointAxis) : Bool := a.fixed_value.isSome

/-- Embedding of `RobotStateModule` (robot_state_module.rs).  Only
`ordered_joint_axes` is stored; `ordered_dof_joint_axes`, `num_dofs` and
`num_axes` are derived below exactly as `RobotStateModule::new` computes them
(`set_ordered_joint_axes` pushes every axis to `ordered_joint_axes` and the
non-fixed ones, in the same order, to `ordered_dof_joint_axes`). -/
structure RobotStateModule where
  ordered_joint_axes : List JointAxis
deriving DecidableEq, Repr

/-- The `ordered_dof_joint_axes` field: the non-fixed axes in order. -/
def RobotStateModule.ordered_dof_joint_axes (m : RobotStateModule) : List JointAxis :=
  m.ordered_joint_axes.filter (fun a => ! a.is_fixed)

/-- The `num_dofs` field. -/
def RobotStateModule.num_dofs (m : RobotStateModule) : ℕ :=
  m.ordered_dof_joint_axes.length

/-- The `num_axes` field. -/
def RobotStateModule.num_axes (m : RobotStateModule) : ℕ :=
  m.ordered_joint_axes.length

/-- Embedding of `RobotStateType` (robot_state_module.rs lines 375-379). -/
inductive RobotStateType where
  | DOF
  | Full
deriving DecidableEq, Repr

/-- Embedding of `RobotState` (robot_state_module.rs lines 290-294): a vector
of scalars tagged with its state type. -/
structure RobotState where
  state : List ℚ
  robot_state_type : RobotStateType
deriving DecidableEq, Repr

/-- `RobotState::len()`. -/
def RobotState.len (s : RobotState) : ℕ := s.state.length

/-- Embedding of `RobotState::new` (lines 296-314): validates the vector
length against the owning module for the requested type. -/
def RobotState.new (state : List ℚ) (robot_state_type : RobotStateType)
    (m : RobotStateModule) : Except OptimaError RobotState :=
  match robot_state_type with
  | .DOF =>
    if m.num_dofs ≠ state.length then
      .error (.robotStateVecWrongSize state.length m.num_dofs)
    else .ok ⟨state, .DOF⟩
  | .Full =>
    if m.num_axes ≠ state.length then
      .error (.robotStateVecWrongSize state.length m.num_axes)
    else .ok ⟨state, .Full⟩

/-- The scatter loop of `convert_state_to_full_state` (lines 156-163): walk
all axes in order, emitting the fixed value for fixed axes and consuming the
next DOF value (`state[bookmark]`, `bookmark += 1`) for free ones. -/
def scatterFull : List JointAxis → List ℚ → List ℚ
  | [], _ => []
  | a :: rest, dofs =>
    match a.fixed_value with
    | some v => v :: scatterFull rest dofs
    | none => dofs.headI :: scatterFull rest dofs.tail

/-- The gather loop of `convert_state_to_dof_state` (lines 180-185): walk all
axes in order, copying `state[i]` for each non-fixed axis. -/
def gatherDof : List JointAxis → List ℚ → List ℚ
  | [], _ => []
  | a :: rest, vs =>
    match a.fixed_value with
    | some _ => gatherDof rest vs.tail
    | none => vs.headI :: gatherDof rest vs.tail

/-- Embedding of `RobotStateModule::convert_state_to_full_state`
(lines 145-166): length check against `num_dofs`, then — exactly as the Rust
code is written — an early `Ok(state.clone())` when the state's type tag is
`DOF`, and otherwise the scatter loop followed by `RobotState::new`. -/
def convert_state_to_full_state (m : RobotStateModule) (state : RobotState) :
    Except OptimaError RobotState :=
  if state.len ≠ m.num_dofs then
    .error (.robotStateVecWrongSize state.len m.num_dofs)
  else if state.robot_state_type = .DOF then .ok state
  else RobotState.new (scatterFull m.ordered_joint_axes state.state) .Full m

/-- Embedding of `RobotStateModule::convert_state_to_dof_state`
(lines 169-188): length check against `num_axes`, then an early
`Ok(state.clone())` when the state's type tag is `Full`, and otherwise the
gather loop followed by `RobotState::new`. -/
def convert_state_to_dof_state (m : RobotStateModule) (state : RobotState) :
    Except OptimaError RobotState :=
  if state.len ≠ m.num_axes then
    .error (.robotStateVecWrongSize state.len m.num_axes)
  else if state.robot_state_type = .Full then .ok state
  else RobotState.new (gatherDof m.ordered_joint_axes state.state) .DOF m

/-- Embedding of `impl Add for RobotState` (lines 350-359).  The code checks
only the two type tags; the vector addition `self.state() + rhs.state()` is
nalgebra `DVector` addition, which panics when the two lengths differ, so the
embedding returns `.panicked` on that path. -/
def robotStateAdd (a b : RobotState) : PanicOr (Except OptimaError RobotState) :=
  if a.robot_state_type ≠ b.robot_state_type then .ok (.error .genericError)
  else if a.state.length ≠ b.state.length then .panicked
  else .ok (.ok ⟨List.zipWith (· + ·) a.state b.state, a.robot_state_type⟩)

/-- Embedding of `impl Mul<RobotState> for f64` (lines 360-366): scalar
multiplication via `RobotState::new_unchecked`, total, no validation. -/
def robotStateSmul (c : ℚ) (s : RobotState) : RobotState :=
  ⟨s.state.map (fun v => c * v), s.robot_state_type⟩

/-- Embedding of `GeometricShapeSignature` (`utils_shape_geometry` is not
among the extracted sources).  The preprocessing loop only distinguishes the
`RobotLink { link_idx, shape_idx_in_link }` variant from the rest. -/
inductive GeometricShapeSignature where
  | robotLink (link_idx : ℕ) (shape_idx_in_link : ℕ)
  | other (tag : ℕ)
deriving DecidableEq, Repr

/-- The same-link test of the skip loop (robot_geometric_shape_module.rs
lines 161-175): both signatures are `RobotLink` and carry equal link
indices. -/
def sameLinkSignature (sig : ℕ → GeometricShapeSignature) (i j : ℕ) : Bool :=
  match sig i with
  | .robotLink link_idx1 _ =>
    match sig j with
    | .robotLink link_idx2 _ => link_idx1 = link_idx2
    | .other _ => false
  | .other _ => false

/-- Modelled from the spec: `ShapeCollection::replace_skip_from_idxs(true, i, j)`
(`utils_shape_geometry` is not among the extracted sources) writes `true`
into the symmetric skip matrix, i.e. into both cells (i,j) and (j,i)
("A ShapeCollection holds ... a symmetric pairwise skip matrix"). -/
def replaceSkipTrue (skip : ℕ → ℕ → Bool) (i j : ℕ) : ℕ → ℕ → Bool :=
  fun a b => if (a = i ∧ b = j) ∨ (a = j ∧ b = i) then true else skip a b

/-- The body of the post-sampling double loop of
`preprocessing_robot_geometric_shape_collection` (lines 149-188) for one pair
(i,j): the four skip conditions applied in program order.  `col i j` is the
collision counter cell and `count` the total sample count (both `f64` counts
of samples in Rust, exactly representable; the ratio comparison is exact). -/
def processSkipPair (sig : ℕ → GeometricShapeSignature) (col : ℕ → ℕ → ℚ)
    (count : ℚ) (skip : ℕ → ℕ → Bool) (i j : ℕ) : ℕ → ℕ → Bool :=
  let s1 := if i = j then replaceSkipTrue skip i j else skip
  let s2 := if sameLinkSignature sig i j then replaceSkipTrue s1 i j else s1
  let s3 :=
    if 70 ≤ count ∧ 99 / 100 < col i j / count then replaceSkipTrue s2 i j else s2
  if 1000 ≤ count ∧ col i j / count = 0 then replaceSkipTrue s3 i j else s3

/-- The post-sampling double loop over all ordered shape pairs, starting from
the freshly built collection's skip matrix (modelled from the spec: a newly
populated `ShapeCollection` has no pair marked skip). -/
def markSkips (num_shapes : ℕ) (sig : ℕ → GeometricShapeSignature)
    (col : ℕ → ℕ → ℚ) (count : ℚ) : ℕ → ℕ → Bool :=
  (List.range num_shapes).foldl
    (fun sk i =>
      (List.range num_shapes).foldl
        (fun sk2 j => processSkipPair sig col count sk2 i j) sk)
    (fun _ _ => false)

/-- Embedding of `OptimaRotationType` (optima_rotation.rs lines 353-357). -/
inductive OptimaRotationType where
  | rotationMatrix
  | unitQuaternion
deriving DecidableEq, Repr

/-- Embedding of `OptimaSE3PoseType` (optima_se3_pose.rs lines 263-269). -/
inductive OptimaSE3PoseType where
  | implicitDualQuaternion
  | homogeneousMatrix
  | unitQuaternionAndTranslation
  | rotationMatrixAndTranslation
deriving DecidableEq, Repr

/-- Embedding of `OptimaRotation` (optima_rotation.rs lines 8-11).  The Rust
payloads `Rotation3<f64>` and `UnitQuaternion<f64>` are kept abstract as type
parameters `RM` and `UQ`; note that the representation tag is a stored field
alongside the payload, exactly as in the Rust enum. -/
inductive OptimaRotation (RM UQ : Type) where
  | rotationMatrix (data : RM) (rotation_type : OptimaRotationType)
  | unitQuaternion (data : UQ) (rotation_type : OptimaRotationType)
deriving DecidableEq, Repr

/-- `OptimaRotation::new_rotation_matrix` (lines 13-15). -/
def OptimaRotation.new_rotation_matrix {RM UQ : Type} (data : RM) :
    OptimaRotation RM UQ :=
  .rotationMatrix data .rotationMatrix

/-- `OptimaRotation::new_unit_quaternion` (lines 16-18). -/
def OptimaRotation.new_unit_quaternion {RM UQ : Type} (data : UQ) :
    OptimaRotation RM UQ :=
  .unitQuaternion data .unitQuaternion

/-- `OptimaRotation::get_rotation_type` (lines 318-323): reads the stored tag
field. -/
def OptimaRotation.get_rotation_type {RM UQ : Type} :
    OptimaRotation RM UQ → OptimaRotationType
  | .rotationMatrix _ t => t
  | .unitQuaternion _ t => t

/-- The stored tag agrees with the payload variant.  Every value built through
the public constructors satisfies this; serde deserialization is the only way
to break it. -/
def OptimaRotation.wf {RM UQ : Type} : OptimaRotation RM UQ → Bool
  | .rotationMatrix _ t => t = .rotationMatrix
  | .unitQuaternion _ t => t = .unitQuaternion

/-- The abstract nalgebra operations used by the embedded rotation code:
composition per representation and the two cross-representation conversions
(`UnitQuaternion::from_rotation_matrix`, `UnitQuaternion::to_rotation_matrix`). -/
structure RotOps (RM UQ : Type) where
  rmMul : RM → RM → RM
  uqMul : UQ → UQ → UQ
  uqOfRm : RM → UQ
  rmOfUq : UQ → RM

/-- Embedding of `OptimaRotation::convert` (lines 50-75).  Note the
same-representation branches return `self.clone()` with its stored tag
untouched. -/
def OptimaRotation.convert {RM UQ : Type} (ops : RotOps RM UQ) :
    OptimaRotation RM UQ → OptimaRotationType → OptimaRotation RM UQ
  | .rotationMatrix data t, target =>
    match target with
    | .rotationMatrix => .rotationMatrix data t
    | .unitQuaternion => OptimaRotation.new_unit_quaternion (ops.uqOfRm data)
  | .unitQuaternion data t, target =>
    match target with
    | .rotationMatrix => OptimaRotation.new_rotation_matrix (ops.rmOfUq data)
    | .unitQuaternion => .unitQuaternion data t

/-- Embedding of `OptimaRotation::multiply` (lines 111-143).  The Rust
function recurses after converting the right operand; the recursion is
bounded by fuel (`none` models divergence, which the Rust code exhibits only
on tag/variant-inconsistent values, where the `clone` branches of `convert`
leave the mismatched tag in place forever). -/
def OptimaRotation.multiplyFuel {RM UQ : Type} (ops : RotOps RM UQ) :
    ℕ → OptimaRotation RM UQ → OptimaRotation RM UQ → Bool →
    Option (Except OptimaError (OptimaRotation RM UQ))
  | 0, _, _, _ => none
  | fuel + 1, self, other, conversion_if_necessary =>
    if self.get_rotation_type ≠ other.get_rotation_type then
      if conversion_if_necessary then
        OptimaRotation.multiplyFuel ops fuel self
          (other.convert ops self.get_rotation_type) conversion_if_necessary
      else some (.error .genericError)
    else
      match self, other with
      | .rotationMatrix data0 _, .rotationMatrix data _ =>
        some (.ok (OptimaRotation.new_rotation_matrix (ops.rmMul data0 data)))
      | .unitQuaternion data0 _, .unitQuaternion data _ =>
        some (.ok (OptimaRotation.new_unit_quaternion (ops.uqMul data0 data)))
      | _, _ => some (.error .genericError)

/-- `OptimaRotation::multiply` with enough fuel for every well-formed input
(at most one conversion step is ever taken). -/
def OptimaRotation.multiply {RM UQ : Type} (ops : RotOps RM UQ)
    (self other : OptimaRotation RM UQ) (conversion_if_necessary : Bool) :
    Option (Except OptimaError (OptimaRotation RM UQ)) :=
  OptimaRotation.multiplyFuel ops 2 self other conversion_if_necessary

/-- Embedding of `RotationAndTranslation` (`rotation_and_translation.rs` is
not among the extracted sources; the field layout follows the spec's
"rotation+translation pair (itself parameterized by rotation-matrix or
unit-quaternion)"). -/
structure RotationAndTranslation (RM UQ V3 : Type) where
  rotation : OptimaRotation RM UQ
  translation : V3
deriving DecidableEq, Repr

/-- Embedding of `OptimaSE3Pose` (optima_se3_pose.rs lines 14-18).  The Rust
payloads `ImplicitDualQuaternion` and `HomogeneousMatrix` are abstract type
parameters; the pose tag is a stored field, as in the Rust enum. -/
inductive OptimaSE3Pose (IDQ HM RM UQ V3 : Type) where
  | implicitDualQuaternion (data : IDQ) (pose_type : OptimaSE3PoseType)
  | homogeneousMatrix (data : HM) (pose_type : OptimaSE3PoseType)
  | rotationAndTranslation (data : RotationAndTranslation RM UQ V3)
      (pose_type : OptimaSE3PoseType)
deriving DecidableEq, Repr

/-- `OptimaSE3Pose::new_implicit_dual_quaternion` (lines 20-22). -/
def OptimaSE3Pose.new_implicit_dual_quaternion {IDQ HM RM UQ V3 : Type}
    (data : IDQ) : OptimaSE3Pose IDQ HM RM UQ V3 :=
  .implicitDualQuaternion data .implicitDualQuaternion

/-- `OptimaSE3Pose::new_homogeneous_matrix` (lines 23-25). -/
def OptimaSE3Pose.new_homogeneous_matrix {IDQ HM RM UQ V3 : Type}
    (data : HM) : OptimaSE3Pose IDQ HM RM UQ V3 :=
  .homogeneousMatrix data .homogeneousMatrix

/-- `OptimaSE3Pose::new_rotation_and_translation` (lines 26-35): the pose tag
is derived from the payload's rotation variant. -/
def OptimaSE3Pose.new_rotation_and_translation {IDQ HM RM UQ V3 : Type}
    (data : RotationAndTranslation RM UQ V3) : OptimaSE3Pose IDQ HM RM UQ V3 :=
  match data.rotation with
  | .rotationMatrix _ _ => .rotationAndTranslation data .rotationMatrixAndTranslation
  | .unitQuaternion _ _ => .rotationAndTranslation data .unitQuaternionAndTranslation

/-- `OptimaSE3Pose::get_pose_type` (lines 254-260): reads the stored tag. -/
def OptimaSE3Pose.get_pose_type {IDQ HM RM UQ V3 : Type} :
    OptimaSE3Pose IDQ HM RM UQ V3 → OptimaSE3PoseType
  | .implicitDualQuaternion _ t => t
  | .homogeneousMatrix _ t => t
  | .rotationAndTranslation _ t => t

/-- The stored pose tag agrees with the payload variant (and, for the
rotation-and-translation variant, with the inner rotation's variant, whose
own tag must also agree). -/
def OptimaSE3Pose.wf {IDQ HM RM UQ V3 : Type} :
    OptimaSE3Pose IDQ HM RM UQ V3 → Bool
  | .implicitDualQuaternion _ t => t = .implicitDualQuaternion
  | .homogeneousMatrix _ t => t = .homogeneousMatrix
  | .rotationAndTranslation d t =>
    d.rotation.wf &&
      (match d.rotation with
       | .rotationMatrix _ _ => t = .rotationMatrixAndTranslation
       | .unitQuaternion _ _ => t = .unitQuaternionAndTranslation)

/-- The abstract payload operations used by the embedded pose code: the
per-representation compositions, the point transforms, and the payload
conversion maps used by `convert`.  `ImplicitDualQuaternion`,
`HomogeneousMatrix` and `RotationAndTranslation` methods live outside the
extracted sources, so their bodies stay abstract; only their types matter to
the claims proved here. -/
structure SE3Ops (IDQ HM RM UQ V3 : Type) extends RotOps RM UQ where
  idqMulSC : IDQ → IDQ → IDQ
  hmMul : HM → HM → HM
  rmApply : RM → V3 → V3
  uqApply : UQ → V3 → V3
  v3Add : V3 → V3 → V3
  idqInvMulByPointSC : IDQ → V3 → V3
  hmMulByPoint : HM → V3 → V3
  hmInvMulByPoint : HM → V3 → V3
  rtMulByPoint : RotationAndTranslation RM UQ V3 → V3 → V3
  rtInvMulByPoint : RotationAndTranslation RM UQ V3 → V3 → V3
  idqOfHm : HM → IDQ
  idqOfRt : RotationAndTranslation RM UQ V3 → IDQ
  hmOfIdq : IDQ → HM
  hmOfRt : RotationAndTranslation RM UQ V3 → HM
  uqOfIdq : IDQ → UQ
  rmOfIdq : IDQ → RM
  transOfIdq : IDQ → V3
  uqOfHm : HM → UQ
  rmOfHm : HM → RM
  transOfHm : HM → V3

/-- `OptimaRotation::multiply_by_point` (optima_rotation.rs lines 145-154). -/
def OptimaRotation.multiply_by_point {RM UQ V3 : Type}
    (rmApply : RM → V3 → V3) (uqApply : UQ → V3 → V3) :
    OptimaRotation RM UQ → V3 → V3
  | .rotationMatrix data _, point => rmApply data point
  | .unitQuaternion data _, point => uqApply data point

/-- Modelled from the spec: `RotationAndTranslation::multiply`
(`rotation_and_translation.rs` is not among the extracted sources).  Per the
spec's composition contract, the rotations are composed through
`OptimaRotation::multiply` with the same conversion flag and the translation
is the left rotation applied to the right translation plus the left
translation; the rotation multiplication is the only fallible step. -/
def RotationAndTranslation.multiply {RM UQ V3 : Type} (ops : SE3Ops IDQ HM RM UQ V3)
    (self other : RotationAndTranslation RM UQ V3) (conversion_if_necessary : Bool) :
    Option (Except OptimaError (RotationAndTranslation RM UQ V3)) :=
  match OptimaRotation.multiply ops.toRotOps self.rotation other.rotation
      conversion_if_necessary with
  | none => none
  | some (.error e) => some (.error e)
  | some (.ok r) =>
    some (.ok ⟨r, ops.v3Add
      (OptimaRotation.multiply_by_point ops.rmApply ops.uqApply self.rotation
        other.translation)
      self.translation⟩)

/-- Embedding of `OptimaSE3Pose::convert` (lines 57-64), which delegates to
the payload `convert` methods.  Modelled from the spec where those methods
are outside the extracted sources: conversion to a target representation
yields a pose of that representation, built through the public constructors;
a rotation-and-translation payload converts its rotation with
`OptimaRotation::convert` (which is in the sources) and keeps its
translation. -/
def OptimaSE3Pose.convert {IDQ HM RM UQ V3 : Type} (ops : SE3Ops IDQ HM RM UQ V3)
    (self : OptimaSE3Pose IDQ HM RM UQ V3) (target : OptimaSE3PoseType) :
    OptimaSE3Pose IDQ HM RM UQ V3 :=
  match target with
  | .implicitDualQuaternion =>
    OptimaSE3Pose.new_implicit_dual_quaternion
      (match self with
       | .implicitDualQuaternion d _ => d
       | .homogeneousMatrix d _ => ops.idqOfHm d
       | .rotationAndTranslation d _ => ops.idqOfRt d)
  | .homogeneousMatrix =>
    OptimaSE3Pose.new_homogeneous_matrix
      (match self with
       | .implicitDualQuaternion d _ => ops.hmOfIdq d
       | .homogeneousMatrix d _ => d
       | .rotationAndTranslation d _ => ops.hmOfRt d)
  | .unitQuaternionAndTranslation =>
    OptimaSE3Pose.new_rotation_and_translation
      (match self with
       | .implicitDualQuaternion d _ =>
         ⟨OptimaRotation.new_unit_quaternion (ops.uqOfIdq d), ops.transOfIdq d⟩
       | .homogeneousMatrix d _ =>
         ⟨OptimaRotation.new_unit_quaternion (ops.uqOfHm d), ops.transOfHm d⟩
       | .rotationAndTranslation d _ =>
         ⟨d.rotation.convert ops.toRotOps .unitQuaternion, d.translation⟩)
  | .rotationMatrixAndTranslation =>
    OptimaSE3Pose.new_rotation_and_translation
      (match self with
       | .implicitDualQuaternion d _ =>
         ⟨OptimaRotation.new_rotation_matrix (ops.rmOfIdq d), ops.transOfIdq d⟩
       | .homogeneousMatrix d _ =>
         ⟨OptimaRotation.new_rotation_matrix (ops.rmOfHm d), ops.transOfHm d⟩
       | .rotationAndTranslation d _ =>
         ⟨d.rotation.convert ops.toRotOps .rotationMatrix, d.translation⟩)

/-- Embedding of `OptimaSE3Pose::multiply` (optima_se3_pose.rs lines 74-114).
As with rotations, the Rust recursion after converting the right operand is
bounded by fuel (`none` models divergence, reachable only from
tag/variant-inconsistent values). -/
def OptimaSE3Pose.multiplyFuel {IDQ HM RM UQ V3 : Type} (ops : SE3Ops IDQ HM RM UQ V3) :
    ℕ → OptimaSE3Pose IDQ HM RM UQ V3 → OptimaSE3Pose IDQ HM RM UQ V3 → Bool →
    Option (Except OptimaError (OptimaSE3Pose IDQ HM RM UQ V3))
  | 0, _, _, _ => none
  | fuel + 1, self, other, conversion_if_necessary =>
    if self.get_pose_type ≠ other.get_pose_type then
      if conversion_if_necessary then
        OptimaSE3Pose.multiplyFuel ops fuel self
          (other.convert ops self.get_pose_type) conversion_if_necessary
      else some (.error .genericError)
    else
      match self, other with
      | .implicitDualQuaternion data0 _, .implicitDualQuaternion data _ =>
        some (.ok (OptimaSE3Pose.new_implicit_dual_quaternion (ops.idqMulSC data0 data)))
      | .homogeneousMatrix data0 _, .homogeneousMatrix data _ =>
        some (.ok (OptimaSE3Pose.new_homogeneous_matrix (ops.hmMul data0 data)))
      | .rotationAndTranslation data0 _, .rotationAndTranslation data _ =>
        (match RotationAndTranslation.multiply ops data0 data conversion_if_necessary with
         | none => none
         | some (.error e) => some (.error e)
         | some (.ok r) =>
           some (.ok (OptimaSE3Pose.new_rotation_and_translation r)))
      | _, _ => some (.error .genericError)

/-- `OptimaSE3Pose::multiply` with enough fuel for every well-formed input
(at most one conversion step is ever taken). -/
def OptimaSE3Pose.multiply {IDQ HM RM UQ V3 : Type} (ops : SE3Ops IDQ HM RM UQ V3)
    (self other : OptimaSE3Pose IDQ HM RM UQ V3) (conversion_if_necessary : Bool) :
    Option (Except OptimaError (OptimaSE3Pose IDQ HM RM UQ V3)) :=
  OptimaSE3Pose.multiplyFuel ops 2 self other conversion_if_necessary

/-- Embedding of `OptimaSE3Pose::multiply_by_point` (lines 116-122).  Note the
implicit-dual-quaternion arm calls `inverse_multiply_by_point_shortcircuit`,
the same routine the inverse transform below uses. -/
def OptimaSE3Pose.multiply_by_point {IDQ HM RM UQ V3 : Type}
    (ops : SE3Ops IDQ HM RM UQ V3) :
    OptimaSE3Pose IDQ HM RM UQ V3 → V3 → V3
  | .implicitDualQuaternion data _, point => ops.idqInvMulByPointSC data point
  | .homogeneousMatrix data _, point => ops.hmMulByPoint data point
  | .rotationAndTranslation data _, point => ops.rtMulByPoint data point

/-- Embedding of `OptimaSE3Pose::inverse_multiply_by_point` (lines 125-131). -/
def OptimaSE3Pose.inverse_multiply_by_point {IDQ HM RM UQ V3 : Type}
    (ops : SE3Ops IDQ HM RM UQ V3) :
    OptimaSE3Pose IDQ HM RM UQ V3 → V3 → V3
  | .implicitDualQuaternion data _, point => ops.idqInvMulByPointSC data point
  | .homogeneousMatrix data _, point => ops.hmInvMulByPoint data point
  | .rotationAndTranslation data _, point => ops.rtInvMulByPoint data point

/-- Test fixture: a three-link chain world → l1 → l2 where joint 0
(world → l1) is actuated (1 DOF) and joint 1 (l1 → l2) is fixed (0 DOF). -/
def linksFixtureA : List Link :=
  [⟨none, none, true⟩, ⟨some 0, some 0, true⟩, ⟨some 1, some 1, true⟩]

/-- Test fixture: the joints of the chain above. -/
def jointsFixtureA : List Joint :=
  [⟨some 0, some 1, 1, true⟩, ⟨some 1, some 2, 0, true⟩]

/-- Test fixture: a state module with one fixed axis (value 7) and one free
axis, so `num_dofs = 1` and `num_axes = 2`. -/
def stateModFixture : RobotStateModule :=
  ⟨[⟨0, some 7⟩, ⟨0, none⟩]⟩

/-- Test fixture: a two-link module (root plus one child) with one actuated
joint, world link 0. -/
def moduleFixtureB : RobotModelModule :=
  ⟨[⟨none, none, true⟩, ⟨some 0, some 0, true⟩], [⟨some 0, some 1, 1, true⟩], 0, 0⟩

/-- Test fixture: a module whose two links both lack a preceding link (two
roots). -/
def moduleFixtureTwoRoots : RobotModelModule :=
  ⟨[⟨none, none, true⟩, ⟨none, none, true⟩], [], 0, 0⟩

/-- Test fixture: a module with no parentless link at all (zero roots). -/
def moduleFixtureNoRoot : RobotModelModule :=
  ⟨[⟨some 0, none, true⟩], [], 0, 0⟩

/-- Test fixture: a trivial instantiation of the abstract SE(3) payload
operations at the unit type, for evaluating the pose theorems on concrete
inputs. -/
def unitSE3Ops : SE3Ops Unit Unit Unit Unit Unit where
  rmMul := fun _ _ => ()
  uqMul := fun _ _ => ()
  uqOfRm := fun _ => ()
  rmOfUq := fun _ => ()
  idqMulSC := fun _ _ => ()
  hmMul := fun _ _ => ()
  rmApply := fun _ _ => ()
  uqApply := fun _ _ => ()
  v3Add := fun _ _ => ()
  idqInvMulByPointSC := fun _ _ => ()
  hmMulByPoint := fun _ _ => ()
  hmInvMulByPoint := fun _ _ => ()
  rtMulByPoint := fun _ _ => ()
  rtInvMulByPoint := fun _ _ => ()
  idqOfHm := fun _ => ()
  idqOfRt := fun _ => ()
  hmOfIdq := fun _ => ()
  hmOfRt := fun _ => ()
  uqOfIdq := fun _ => ()
  rmOfIdq := fun _ => ()
  transOfIdq := fun _ => ()
  uqOfHm := fun _ => ()
  rmOfHm := fun _ => ()
  transOfHm := fun _ => ()

/-- C1: the claim says `get_preceding_actuated_joint_idx` walks upward through
the chain of preceding joints until a joint with at least 1 DOF is found.  The
code's ascent is broken: after finding a 0-DOF preceding joint it returns
`None` precisely when that joint has a preceding link (the `is_some` test that
was evidently meant to be `is_none`), and panics otherwise.  On the fixture
chain, link 2's preceding joint is fixed, so the code returns `None`, while
the documented walk (embedded as `preceding_actuated_joint_idx_spec`) reaches
the actuated joint 0. -/
theorem claim_C1_preceding_actuated_joint_idx_bug :
    get_preceding_actuated_joint_idx linksFixtureA jointsFixtureA 2 = .ok none ∧
    preceding_actuated_joint_idx_spec linksFixtureA jointsFixtureA
      linksFixtureA.length 2 = some 0 := by
  constructor <;> rfl

/-- C2: the claim says DOF → Full → DOF round-trips exactly.  The code's
`convert_state_to_full_state` returns its input unchanged whenever the input's
tag is `DOF` (the early-return tag test is inverted), so the DOF state is
never expanded; the subsequent `convert_state_to_dof_state` then rejects it
with a size error whenever the module has at least one fixed axis
(`num_dofs ≠ num_axes`).  Evaluated on a module with one fixed and one free
axis and the DOF state `[3]`. -/
theorem claim_C2_dof_full_round_trip_bug :
    convert_state_to_full_state stateModFixture ⟨[3], .DOF⟩ = .ok ⟨[3], .DOF⟩ ∧
    convert_state_to_dof_state stateModFixture ⟨[3], .DOF⟩ =
      .error (.robotStateVecWrongSize 1 2) := by
  constructor <;> rfl

/-- C3 counterexample: the claim says the stored link chain from a link to
itself is the one-element path `[idx]`.  On the two-link fixture,
`get_link_chain(0, 0)` returns `Ok(None)`: `assign_link_chain(0, 0)` walks
upward from link 0, immediately reaches the parentless root and returns
without ever storing a path, leaving the cell empty. -/
theorem claim_C3_counterexample :
    get_link_chain moduleFixtureB 0 0 = .ok none ∧
    get_link_chain moduleFixtureB 0 0 ≠ .ok (some [0]) := by
  constructor <;> decide

/-- C6 counterexample: the claim says graph construction fails with an error
when the raw records contain zero or more than one parentless link.  The
embedded `set_world_link_idx_manual` has no error path at all: with two roots
it silently selects the first parentless link (index 0), and with zero roots
it leaves the module untouched. -/
theorem claim_C6_counterexample :
    set_world_link_idx_manual moduleFixtureTwoRoots =
      { moduleFixtureTwoRoots with world_link_idx := 0, robot_base_link_idx := 0 } ∧
    set_world_link_idx_manual moduleFixtureNoRoot = moduleFixtureNoRoot := by
  constructor <;> decide

/-- C7 counterexample: the claim says addition returns a typed error whenever
the two states' vector lengths differ and that the operation is total.  The
code checks only the type tags; on two DOF-tagged states of lengths 1 and 2
the nalgebra vector addition panics. -/
theorem claim_C7_counterexample :
    robotStateAdd ⟨[0], .DOF⟩ ⟨[0, 0], .DOF⟩ = .panicked := by
  rfl

/-- C9: on the implicit-dual-quaternion representation, the forward point
transform and the inverse point transform coincide — both arms of the match
delegate to the payload's `inverse_multiply_by_point_shortcircuit`. -/
theorem claim_C9_idq_point_transform_coincide {IDQ HM RM UQ V3 : Type}
    (ops : SE3Ops IDQ HM RM UQ V3) (d : IDQ) (t : OptimaSE3PoseType) (point : V3) :
    OptimaSE3Pose.multiply_by_point ops
        (@OptimaSE3Pose.implicitDualQuaternion IDQ HM RM UQ V3 d t) point =
      OptimaSE3Pose.inverse_multiply_by_point ops
        (OptimaSE3Pose.implicitDualQuaternion d t) point := by
  rfl

lemma assign_link_chain_loop_self (links : List Link) (depth : ℕ → ℕ)
    (hd : ∀ i, i < links.length →
      match linkParent links i with
      | some p => depth i = depth p + 1
      | none => True)
    (idx : ℕ) :
    ∀ fuel (v : List ℕ), depth v.headI ≤ depth idx →
      assign_link_chain_loop links idx fuel v = none := by
  intro fuel
  induction fuel with
  | zero => intro v _; rfl
  | succ n ih =>
    intro v hv
    cases hp : linkParent links v.headI with
    | none => simp [assign_link_chain_loop, hp]
    | some p =>
      have hlt : v.headI < links.length := by
        by_contra hge
        have hnone : links.get? v.headI = none := List.get?_eq_none.mpr (by omega)
        unfold linkParent at hp
        rw [hnone] at hp
        simp at hp
      have hstep : depth v.headI = depth p + 1 := by
        have h := hd v.headI hlt
        rw [hp] at h
        exact h
      have hpne : ¬ p = idx := by
        intro he
        rw [he] at hstep
        omega
      simp only [assign_link_chain_loop, hp, hpne, if_false]
      exact ih (p :: v) (by simp only [List.headI]; omega)

/-- C3 amended: for every link index of a module whose parent pointers admit a
depth function (i.e. the parent graph is acyclic, as produced by
construction), the stored chain from a link to itself is empty and
`get_link_chain(idx, idx)` returns `Ok(None)` — not the one-element path the
spec states.  The upward walk of `assign_link_chain` strictly decreases depth,
so it can never re-encounter `idx`, and it therefore never stores a path into
the diagonal cell. -/
theorem claim_C3_self_chain_is_none (m : RobotModelModule) (depth : ℕ → ℕ)
    (hd : ∀ i, i < m.links.length →
      match linkParent m.links i with
      | some p => depth i = depth p + 1
      | none => True)
    (idx : ℕ) (hidx : idx < m.links.length) :
    get_link_chain m idx idx = .ok none := by
  have hcell : link_chain_cell m.links idx idx = [] := by
    unfold link_chain_cell
    rw [assign_link_chain_loop_self m.links depth hd idx _ [idx] (le_refl _)]
    rfl
  unfold get_link_chain
  rw [if_neg (by omega), if_neg (by omega)]
  simp [hcell]

/-- C3 witness: the amended statement evaluated at the two-link fixture, link
1, with the identity depth function. -/
theorem claim_C3_witness :
    get_link_chain moduleFixtureB 1 1 = .ok none :=
  claim_C3_self_chain_is_none moduleFixtureB (fun i => i)
    (by
      intro i hi
      have h2 : i < 2 := by simpa [moduleFixtureB] using hi
      interval_cases i
      · exact trivial
      · rfl)
    1 (by decide)

lemma find?_eq_some_of_unique {p : ℕ → Bool} :
    ∀ (l : List ℕ) (w : ℕ), w ∈ l → p w = true →
      (∀ x ∈ l, p x = true → x = w) → l.find? p = some w := by
  intro l
  induction l with
  | nil => intro w hw _ _; cases hw
  | cons a t ih =>
    intro w hw hpw huniq
    by_cases hpa : p a = true
    · have ha : a = w := huniq a (List.mem_cons_self a t) hpa
      rw [List.find?_cons_of_pos _ hpa, ha]
    · have hwa : w ≠ a := fun he => hpa (he ▸ hpw)
      have hwt : w ∈ t := by
        cases List.mem_cons.mp hw with
        | inl h => exact absurd h.symm hwa.symm
        | inr h => exact h
      rw [List.find?_cons_of_neg _ hpa]
      exact ih w hwt hpw (fun x hx => huniq x (List.mem_cons_of_mem _ hx))

lemma find?_range_min {p : ℕ → Bool} :
    ∀ (n : ℕ) (i : ℕ), (List.range n).find? p = some i → ∀ j, j < i → p j = false := by
  intro n
  induction n with
  | zero => intro i h; simp [List.range_zero] at h
  | succ k ih =>
    intro i h j hj
    rw [List.range_succ, List.find?_append] at h
    cases hk : (List.range k).find? p with
    | some i' =>
      rw [hk] at h
      simp at h
      exact ih i' hk j (h ▸ hj)
    | none =>
      rw [hk] at h
      simp at h
      obtain ⟨hpk, hik⟩ := h
      have hjk : j < k := by omega
      have hnot := List.find?_eq_none.mp hk j (List.mem_range.mpr hjk)
      cases hpj : p j with
      | false => rfl
      | true => exact absurd hpj hnot

/-- C6 amended: graph construction never raises an error over the root scan:
`set_world_link_idx_manual` silently selects the first link without a
preceding link as both `world_link_idx` and `robot_base_link_idx`, and when
every link has a preceding link it leaves the module unchanged (so duplicate
or missing roots are not detected). -/
theorem claim_C6_root_selection (m : RobotModelModule) :
    (∀ i, findRoot m.links = some i →
       set_world_link_idx_manual m =
         { m with world_link_idx := i, robot_base_link_idx := i } ∧
       linkParent m.links i = none ∧
       ∀ j, j < i → linkParent m.links j ≠ none) ∧
    (findRoot m.links = none → set_world_link_idx_manual m = m) := by
  constructor
  · intro i h
    have h' : (List.range m.links.length).find?
        (fun i => (linkParent m.links i).isNone) = some i := h
    refine ⟨?_, ?_, ?_⟩
    · unfold set_world_link_idx_manual
      rw [h]
    · have hp := List.find?_some h'
      exact Option.isNone_iff_eq_none.mp hp
    · intro j hj he
      have hf := find?_range_min m.links.length i h' j hj
      rw [he] at hf
      simp at hf
  · intro h
    unfold set_world_link_idx_manual
    rw [h]

/-- C6 witness: the amended statement evaluated at the two-root fixture: the
first parentless link (index 0) is selected silently. -/
theorem claim_C6_witness :
    set_world_link_idx_manual moduleFixtureTwoRoots =
      { moduleFixtureTwoRoots with world_link_idx := 0, robot_base_link_idx := 0 } ∧
    linkParent moduleFixtureTwoRoots.links 0 = none := by
  have h := (claim_C6_root_selection moduleFixtureTwoRoots).1 0 (by decide)
  exact ⟨h.1, h.2.1⟩

/-- C7 amended: RobotState addition returns a typed error exactly when the two
type tags differ; when the tags match but the vector lengths differ it panics
(nalgebra dimension mismatch) instead of returning an error; when tags and
lengths match it returns the elementwise sum under the shared tag.  Scalar
multiplication never validates anything: it is total and preserves the tag
and the length. -/
theorem claim_C7_add_mul_totality (a b : RobotState) (c : ℚ) (s : RobotState) :
    (a.robot_state_type ≠ b.robot_state_type →
       robotStateAdd a b = .ok (.error .genericError)) ∧
    (a.robot_state_type = b.robot_state_type → a.state.length ≠ b.state.length →
       robotStateAdd a b = .panicked) ∧
    (a.robot_state_type = b.robot_state_type → a.state.length = b.state.length →
       robotStateAdd a b =
         .ok (.ok ⟨List.zipWith (· + ·) a.state b.state, a.robot_state_type⟩)) ∧
    (robotStateSmul c s).robot_state_type = s.robot_state_type ∧
    (robotStateSmul c s).state.length = s.state.length := by
  refine ⟨?_, ?_, ?_, rfl, ?_⟩
  · intro h
    simp [robotStateAdd, h]
  · intro h1 h2
    simp [robotStateAdd, h1, h2]
  · intro h1 h2
    simp [robotStateAdd, h1, h2]
  · simp [robotStateSmul]

/-- C7 witness: the amended statement's error case evaluated on two states of
different tags. -/
theorem claim_C7_witness :
    robotStateAdd ⟨[0], .DOF⟩ ⟨[0], .Full⟩ = .ok (.error .genericError) :=
  (claim_C7_add_mul_totality ⟨[0], .DOF⟩ ⟨[0], .Full⟩ 0 ⟨[], .DOF⟩).1 (by decide)

lemma applyPresenceOp_preserves_world_present (m : RobotModelModule)
    (op : PresenceOp) (h : worldLinkPresent m) :
    worldLinkPresent (applyPresenceOp m op) := by
  cases op with
  | notPresent i =>
    by_cases h1 : m.links.length ≤ i
    · simpa [applyPresenceOp, set_link_as_not_present, h1] using h
    · by_cases h2 : m.world_link_idx = i
      · simpa [applyPresenceOp, set_link_as_not_present, h1, h2] using h
      · intro l hl
        apply h
        simp only [applyPresenceOp, set_link_as_not_present, h1, h2, if_false,
          if_neg] at hl
        rwa [List.get?_set_ne _ _ (fun he => h2 he.symm)] at hl
  | present i =>
    by_cases h1 : m.links.length ≤ i
    · simpa [applyPresenceOp, set_link_as_present, h1] using h
    · by_cases h2 : i = m.world_link_idx
      · intro l hl
        simp only [applyPresenceOp, set_link_as_present, h1, if_false, if_neg] at hl
        rw [← h2, List.get?_set_eq] at hl
        cases hq : m.links.get? i with
        | none =>
          rw [hq] at hl
          simp at hl
        | some o =>
          rw [hq] at hl
          simp only [Option.map_eq_map, Option.map_some', Option.some.injEq] at hl
          rw [← hl]
      · intro l hl
        apply h
        simp only [applyPresenceOp, set_link_as_present, h1, if_false, if_neg] at hl
        rwa [List.get?_set_ne _ _ h2] at hl

lemma applyPresenceOps_preserves_world_present (ops : List PresenceOp) :
    ∀ m : RobotModelModule, worldLinkPresent m →
      worldLinkPresent (applyPresenceOps m ops) := by
  induction ops with
  | nil => intro m h; exact h
  | cons op t ih =>
    intro m h
    exact ih _ (applyPresenceOp_preserves_world_present m op h)

/-- C10: calling `set_link_as_not_present` with the world link index returns
`Ok` with the module completely unchanged (the early return fires before any
flag is touched), and under every sequence of presence mutations the world
link stays present. -/
theorem claim_C10_world_link_immutable (m : RobotModelModule)
    (h : m.world_link_idx < m.links.length) :
    set_link_as_not_present m m.world_link_idx = .ok m ∧
    ∀ ops : List PresenceOp, worldLinkPresent m →
      worldLinkPresent (applyPresenceOps m ops) := by
  constructor
  · simp [set_link_as_not_present, not_le.mpr h]
  · intro ops hp
    exact applyPresenceOps_preserves_world_present ops m hp

/-- C10 witness: the world-link early return evaluated at the two-link
fixture. -/
theorem claim_C10_witness :
    set_link_as_not_present moduleFixtureB moduleFixtureB.world_link_idx =
      .ok moduleFixtureB :=
  (claim_C10_world_link_immutable moduleFixtureB (by decide)).1

lemma replaceSkipTrue_spec (skip : ℕ → ℕ → Bool) (i j a b : ℕ) :
    replaceSkipTrue skip i j a b = true ↔
      ((a = i ∧ b = j) ∨ (a = j ∧ b = i)) ∨ skip a b = true := by
  by_cases h : (a = i ∧ b = j) ∨ (a = j ∧ b = i) <;> simp [replaceSkipTrue, h]

lemma ite_replaceSkipTrue_spec (P : Prop) [Decidable P] (sk : ℕ → ℕ → Bool)
    (i j a b : ℕ) :
    ((if P then replaceSkipTrue sk i j else sk) a b = true) ↔
      (sk a b = true ∨ (((a = i ∧ b = j) ∨ (a = j ∧ b = i)) ∧ P)) := by
  by_cases h : P
  · simp only [if_pos h, replaceSkipTrue_spec]
    tauto
  · simp only [if_neg h]
    tauto

lemma processSkipPair_spec (sig : ℕ → GeometricShapeSignature)
    (col : ℕ → ℕ → ℚ) (count : ℚ) (skip : ℕ → ℕ → Bool) (i j a b : ℕ) :
    processSkipPair sig col count skip i j a b = true ↔
      skip a b = true ∨
        (((a = i ∧ b = j) ∨ (a = j ∧ b = i)) ∧
          (i = j ∨ sameLinkSignature sig i j = true ∨
           (70 ≤ count ∧ 99 / 100 < col i j / count) ∨
           (1000 ≤ count ∧ col i j / count = 0))) := by
  simp only [processSkipPair]
  rw [ite_replaceSkipTrue_spec, ite_replaceSkipTrue_spec, ite_replaceSkipTrue_spec,
    ite_replaceSkipTrue_spec]
  tauto

lemma foldl_processSkipPair_inner (sig : ℕ → GeometricShapeSignature)
    (col : ℕ → ℕ → ℚ) (count : ℚ) (i : ℕ) :
    ∀ (l : List ℕ) (sk : ℕ → ℕ → Bool) (a b : ℕ),
      ((l.foldl (fun sk2 j => processSkipPair sig col count sk2 i j) sk) a b = true) ↔
        (sk a b = true ∨ ∃ j ∈ l,
          (((a = i ∧ b = j) ∨ (a = j ∧ b = i)) ∧
            (i = j ∨ sameLinkSignature sig i j = true ∨
             (70 ≤ count ∧ 99 / 100 < col i j / count) ∨
             (1000 ≤ count ∧ col i j / count = 0)))) := by
  intro l
  induction l with
  | nil => simp
  | cons hd t ih =>
    intro sk a b
    rw [List.foldl_cons, ih, processSkipPair_spec]
    simp only [List.mem_cons]
    constructor
    · rintro ((h | ⟨hhit, hcond⟩) | ⟨j, hj, hcond⟩)
      · exact Or.inl h
      · exact Or.inr ⟨hd, Or.inl rfl, hhit, hcond⟩
      · exact Or.inr ⟨j, Or.inr hj, hcond⟩
    · rintro (h | ⟨j, (rfl | hj), hcond⟩)
      · exact Or.inl (Or.inl h)
      · exact Or.inl (Or.inr hcond)
      · exact Or.inr ⟨j, hj, hcond⟩

lemma foldl_processSkipPair_outer (sig : ℕ → GeometricShapeSignature)
    (col : ℕ → ℕ → ℚ) (count : ℚ) (n : ℕ) :
    ∀ (lo : List ℕ) (sk : ℕ → ℕ → Bool) (a b : ℕ),
      ((lo.foldl (fun sk i => (List.range n).foldl
          (fun sk2 j => processSkipPair sig col count sk2 i j) sk) sk) a b = true) ↔
        (sk a b = true ∨ ∃ i ∈ lo, ∃ j ∈ List.range n,
          (((a = i ∧ b = j) ∨ (a = j ∧ b = i)) ∧
            (i = j ∨ sameLinkSignature sig i j = true ∨
             (70 ≤ count ∧ 99 / 100 < col i j / count) ∨
             (1000 ≤ count ∧ col i j / count = 0)))) := by
  intro lo
  induction lo with
  | nil => simp
  | cons hd t ih =>
    intro sk a b
    rw [List.foldl_cons, ih]
    simp only [List.mem_cons, foldl_processSkipPair_inner]
    constructor
    · rintro ((h | ⟨j, hj, hcond⟩) | ⟨i, hi, j, hj, hcond⟩)
      · exact Or.inl h
      · exact Or.inr ⟨hd, Or.inl rfl, j, hj, hcond⟩
      · exact Or.inr ⟨i, Or.inr hi, j, hj, hcond⟩
    · rintro (h | ⟨i, (rfl | hi), j, hj, hcond⟩)
      · exact Or.inl (Or.inl h)
      · exact Or.inl (Or.inr ⟨j, hj, hcond⟩)
      · exact Or.inr ⟨i, hi, j, hj, hcond⟩

lemma markSkips_spec (n : ℕ) (sig : ℕ → GeometricShapeSignature)
    (col : ℕ → ℕ → ℚ) (count : ℚ) (a b : ℕ) :
    markSkips n sig col count a b = true ↔
      ∃ i ∈ List.range n, ∃ j ∈ List.range n,
        (((a = i ∧ b = j) ∨ (a = j ∧ b = i)) ∧
          (i = j ∨ sameLinkSignature sig i j = true ∨
           (70 ≤ count ∧ 99 / 100 < col i j / count) ∨
           (1000 ≤ count ∧ col i j / count = 0))) := by
  unfold markSkips
  rw [foldl_processSkipPair_outer]
  simp

lemma sameLinkSignature_symm (sig : ℕ → GeometricShapeSignature) (i j : ℕ) :
    sameLinkSignature sig j i = sameLinkSignature sig i j := by
  unfold sameLinkSignature
  cases sig i <;> cases sig j <;> simp [eq_comm]

/-- C5: after the sampling loop of collision-geometry preprocessing, a shape
pair (i, j) is marked skip exactly when i = j, or both signatures carry the
same link index, or the collision ratio exceeds 0.99 with at least the
minimum sample count 70, or the collision ratio is exactly 0 with at least
1000 samples — and in particular same-link pairs are always skipped.  `col`
is the (symmetric, as built by the symmetric `SquareArray2D` accumulator)
collision counter and `count` the total sample count. -/
theorem claim_C5_skip_after_preprocessing (num_shapes : ℕ)
    (sig : ℕ → GeometricShapeSignature) (col : ℕ → ℕ → ℚ) (count : ℚ)
    (i j : ℕ) (hi : i < num_shapes) (hj : j < num_shapes)
    (hsym : ∀ a b, col a b = col b a) :
    (markSkips num_shapes sig col count i j = true ↔
      (i = j ∨ sameLinkSignature sig i j = true ∨
       (70 ≤ count ∧ 99 / 100 < col i j / count) ∨
       (1000 ≤ count ∧ col i j / count = 0))) ∧
    (sameLinkSignature sig i j = true →
      markSkips num_shapes sig col count i j = true) := by
  have hiff : markSkips num_shapes sig col count i j = true ↔
      (i = j ∨ sameLinkSignature sig i j = true ∨
       (70 ≤ count ∧ 99 / 100 < col i j / count) ∨
       (1000 ≤ count ∧ col i j / count = 0)) := by
    rw [markSkips_spec]
    constructor
    · rintro ⟨i', _, j', _, (⟨rfl, rfl⟩ | ⟨rfl, rfl⟩), hcond⟩
      · exact hcond
      · rcases hcond with h | h | h | h
        · exact Or.inl h.symm
        · exact Or.inr (Or.inl (by rw [← sameLinkSignature_symm]; exact h))
        · exact Or.inr (Or.inr (Or.inl (by rwa [hsym j i] at h)))
        · exact Or.inr (Or.inr (Or.inr (by rwa [hsym j i] at h)))
    · intro hcond
      exact ⟨i, List.mem_range.mpr hi, j, List.mem_range.mpr hj,
        Or.inl ⟨rfl, rfl⟩, hcond⟩
  exact ⟨hiff, fun hsame => hiff.mpr (Or.inr (Or.inl hsame))⟩

/-- C5 witness: two distinct shapes attached to the same link are marked skip
even with zero samples and zero observed distances. -/
theorem claim_C5_witness :
    markSkips 2 (fun _ => .robotLink 0 0) (fun _ _ => 0) 0 0 1 = true :=
  (claim_C5_skip_after_preprocessing 2 (fun _ => .robotLink 0 0) (fun _ _ => 0) 0
    0 1 (by decide) (by decide) (fun _ _ => rfl)).2 (by decide)

lemma nextLayerPred_eq_of_get (links : List Link) (prev : List ℕ) (i : ℕ)
    (l : Link) (hl : links.get? i = some l) :
    nextLayerPred links prev i =
      (l.present &&
        (match l.preceding_link_idx with
         | some p => decide (p ∈ prev)
         | none => false)) := by
  unfold nextLayerPred
  rw [hl]

lemma depth_zero_world (links : List Link) (world : ℕ) (depth : ℕ → ℕ)
    (hpar : ∀ i, i < links.length → i ≠ world →
      match linkParent links i with
      | some p => p < links.length
      | none => False)
    (hds : ∀ i, i < links.length →
      match linkParent links i with
      | some p => depth i = depth p + 1
      | none => True) :
    ∀ i, i < links.length → depth i = 0 → i = world := by
  intro i hi h0
  by_contra hne
  cases hq : linkParent links i with
  | none =>
    have hp := hpar i hi hne
    rw [hq] at hp
    exact hp
  | some p =>
    have hs := hds i hi
    rw [hq] at hs
    have hs' : depth i = depth p + 1 := hs
    omega

lemma depth_witness (links : List Link) (world : ℕ) (depth : ℕ → ℕ)
    (hpar : ∀ i, i < links.length → i ≠ world →
      match linkParent links i with
      | some p => p < links.length
      | none => False)
    (hd0 : depth world = 0)
    (hds : ∀ i, i < links.length →
      match linkParent links i with
      | some p => depth i = depth p + 1
      | none => True) :
    ∀ d i, i < links.length → depth i = d → ∀ k, k ≤ d →
      ∃ j, j < links.length ∧ depth j = k := by
  intro d
  induction d with
  | zero =>
    intro i hi h0 k hk
    exact ⟨i, hi, by omega⟩
  | succ e ih =>
    intro i hi hdep k hk
    rcases Nat.lt_or_ge k (e + 1) with hlt | hge
    · have hne : i ≠ world := by
        intro he
        rw [he, hd0] at hdep
        omega
      have hp := hpar i hi hne
      cases hq : linkParent links i with
      | none =>
        rw [hq] at hp
        exact hp.elim
      | some p =>
        rw [hq] at hp
        have hplt : p < links.length := hp
        have hs := hds i hi
        rw [hq] at hs
        have hs' : depth i = depth p + 1 := hs
        exact ih p hplt (by omega) k (by omega)
    · exact ⟨i, hi, by omega⟩

lemma depth_lt_length (links : List Link) (world : ℕ) (depth : ℕ → ℕ)
    (hpar : ∀ i, i < links.length → i ≠ world →
      match linkParent links i with
      | some p => p < links.length
      | none => False)
    (hd0 : depth world = 0)
    (hds : ∀ i, i < links.length →
      match linkParent links i with
      | some p => depth i = depth p + 1
      | none => True) :
    ∀ i, i < links.length → depth i < links.length := by
  intro i hi
  by_contra hge
  push_neg at hge
  have hwit : ∀ k, k ≤ links.length → ∃ j, j < links.length ∧ depth j = k :=
    fun k hk =>
      depth_witness links world depth hpar hd0 hds (depth i) i hi rfl k (by omega)
  let f : Fin (links.length + 1) → Fin links.length := fun k =>
    ⟨(hwit k.val (Nat.lt_succ_iff.mp k.isLt)).choose,
     (hwit k.val (Nat.lt_succ_iff.mp k.isLt)).choose_spec.1⟩
  have hfinj : Function.Injective f := by
    intro x y hxy
    have hx := (hwit x.val (Nat.lt_succ_iff.mp x.isLt)).choose_spec.2
    have hy := (hwit y.val (Nat.lt_succ_iff.mp y.isLt)).choose_spec.2
    have hv : (f x).val = (f y).val := congrArg Fin.val hxy
    apply Fin.ext
    rw [← hx, ← hy]
    simp only [f] at hv
    rw [hv]
  have hcard := Fintype.card_le_of_injective f hfinj
  simp only [Fintype.card_fin] at hcard
  omega

lemma nextLayer_depth_filter (links : List Link) (world : ℕ) (depth : ℕ → ℕ)
    (hwp : linkParent links world = none)
    (hpres : ∀ l ∈ links, l.present = true)
    (hpar : ∀ i, i < links.length → i ≠ world →
      match linkParent links i with
      | some p => p < links.length
      | none => False)
    (hd0 : depth world = 0)
    (hds : ∀ i, i < links.length →
      match linkParent links i with
      | some p => depth i = depth p + 1
      | none => True)
    (k : ℕ) :
    nextLayer links
        ((List.range links.length).filter (fun i => decide (depth i = k))) =
      (List.range links.length).filter (fun i => decide (depth i = k + 1)) := by
  unfold nextLayer
  apply List.filter_congr
  intro i hi
  have hilt : i < links.length := List.mem_range.mp hi
  obtain ⟨l, hl⟩ : ∃ l, links.get? i = some l := by
    cases hq : links.get? i with
    | none => exact absurd (List.get?_eq_none.mp hq) (by omega)
    | some l => exact ⟨l, rfl⟩
  have hpl : l.present = true := hpres l (List.get?_mem hl)
  cases hq : l.preceding_link_idx with
  | none =>
    have hlp : linkParent links i = none := by
      unfold linkParent
      rw [hl]
      exact hq
    have hiw : i = world := by
      by_contra hne
      have hp := hpar i hilt hne
      rw [hlp] at hp
      exact hp
    have hstep : nextLayerPred links
        ((List.range links.length).filter (fun i => decide (depth i = k))) i =
        (l.present && false) := by
      rw [nextLayerPred_eq_of_get _ _ _ _ hl, hq]
    rw [hstep]
    subst hiw
    rw [hd0]
    simp
  | some p =>
    have hlp : linkParent links i = some p := by
      unfold linkParent
      rw [hl]
      exact hq
    have hne : i ≠ world := by
      intro he
      rw [he, hwp] at hlp
      cases hlp
    have hp := hpar i hilt hne
    rw [hlp] at hp
    have hplt : p < links.length := hp
    have hs := hds i hilt
    rw [hlp] at hs
    have hs' : depth i = depth p + 1 := hs
    have hstep : nextLayerPred links
        ((List.range links.length).filter (fun i => decide (depth i = k))) i =
        (l.present && decide (p ∈ (List.range links.length).filter
          (fun i => decide (depth i = k)))) := by
      rw [nextLayerPred_eq_of_get _ _ _ _ hl, hq]
    rw [hstep, hpl, Bool.true_and]
    apply decide_eq_decide.mpr
    rw [List.mem_filter, List.mem_range]
    constructor
    · rintro ⟨_, hdp⟩
      have : depth p = k := of_decide_eq_true hdp
      omega
    · intro hik
      exact ⟨hplt, decide_eq_true_eq.mpr (by omega)⟩

lemma buildLayers_run (links : List Link) (world : ℕ) (depth : ℕ → ℕ)
    (hwp : linkParent links world = none)
    (hpres : ∀ l ∈ links, l.present = true)
    (hpar : ∀ i, i < links.length → i ≠ world →
      match linkParent links i with
      | some p => p < links.length
      | none => False)
    (hd0 : depth world = 0)
    (hds : ∀ i, i < links.length →
      match linkParent links i with
      | some p => depth i = depth p + 1
      | none => True) :
    ∀ fuel k, links.length ≤ fuel + k →
      ∃ K, k ≤ K ∧
        buildLayers links fuel
            ((List.range (k + 1)).map (fun m =>
              (List.range links.length).filter (fun i => decide (depth i = m))))
            ((List.range links.length).filter (fun i => decide (depth i = k))) =
          (List.range (K + 1)).map (fun m =>
            (List.range links.length).filter (fun i => decide (depth i = m))) ∧
        (List.range links.length).filter (fun i => decide (depth i = K + 1)) = [] := by
  intro fuel
  induction fuel with
  | zero =>
    intro k hk
    refine ⟨k, le_refl _, rfl, ?_⟩
    rw [List.filter_eq_nil]
    intro a ha
    have halt : a < links.length := List.mem_range.mp ha
    have hda := depth_lt_length links world depth hpar hd0 hds a halt
    simp only [decide_eq_true_eq]
    omega
  | succ f ih =>
    intro k hk
    by_cases hnl :
        (List.range links.length).filter (fun i => decide (depth i = k + 1)) = []
    · refine ⟨k, le_refl _, ?_, hnl⟩
      simp only [buildLayers]
      rw [nextLayer_depth_filter links world depth hwp hpres hpar hd0 hds k]
      rw [if_pos hnl]
    · obtain ⟨K, hK, hrun, hempty⟩ := ih (k + 1) (by omega)
      refine ⟨K, by omega, ?_, hempty⟩
      simp only [buildLayers]
      rw [nextLayer_depth_filter links world depth hwp hpres hpar hd0 hds k]
      rw [if_neg hnl]
      have hacc : ((List.range (k + 1)).map (fun m =>
            (List.range links.length).filter (fun i => decide (depth i = m)))) ++
            [(List.range links.length).filter (fun i => decide (depth i = k + 1))] =
          (List.range (k + 2)).map (fun m =>
            (List.range links.length).filter (fun i => decide (depth i = m))) := by
        have hr : List.range (k + 2) = List.range (k + 1) ++ [k + 1] :=
          List.range_succ (k + 1)
        rw [hr, List.map_append]
        rfl
      rw [hacc]
      exact hrun

lemma filter_decide_eq_of_nodup :
    ∀ (l : List ℕ) (w : ℕ), l.Nodup → w ∈ l →
      l.filter (fun x => decide (x = w)) = [w] := by
  intro l
  induction l with
  | nil => intro w _ hmem; cases hmem
  | cons a t ih =>
    intro w hnd hmem
    by_cases haw : a = w
    · subst haw
      rw [List.filter_cons_of_pos (by simp)]
      have ht : t.filter (fun x => decide (x = a)) = [] := by
        rw [List.filter_eq_nil]
        intro x hx
        simp only [decide_eq_true_eq]
        rintro rfl
        exact (List.nodup_cons.mp hnd).1 hx
      rw [ht]
    · have hwt : w ∈ t := by
        rcases List.mem_cons.mp hmem with heq | h
        · exact absurd heq.symm haw
        · exact h
      rw [List.filter_cons_of_neg (by simp [haw])]
      exact ih w (List.nodup_cons.mp hnd).2 hwt

/-- C4: on every link set forming a single connected tree rooted at `world`
(witnessed by a breadth-first depth function, every non-root link having an
in-range parent, and all links present), the computed traversal layers put
every link in exactly one layer (with no duplicates inside a layer), layer 0
is exactly the root, a link sits in layer k+1 exactly when its preceding link
sits in layer k, and construction's root scan indeed selects `world`. -/
theorem claim_C4_traversal_layers (links : List Link) (world : ℕ) (depth : ℕ → ℕ)
    (hw : world < links.length)
    (hwp : linkParent links world = none)
    (hpres : ∀ l ∈ links, l.present = true)
    (hpar : ∀ i, i < links.length → i ≠ world →
      match linkParent links i with
      | some p => p < links.length
      | none => False)
    (hd0 : depth world = 0)
    (hds : ∀ i, i < links.length →
      match linkParent links i with
      | some p => depth i = depth p + 1
      | none => True) :
    (∀ i, i < links.length →
       ∃! k, i ∈ (link_tree_traversal_layers links world).getD k []) ∧
    (link_tree_traversal_layers links world).getD 0 [] = [world] ∧
    (∀ k i, i ∈ (link_tree_traversal_layers links world).getD (k + 1) [] ↔
       ∃ l p, links.get? i = some l ∧ l.preceding_link_idx = some p ∧
         p ∈ (link_tree_traversal_layers links world).getD k []) ∧
    (∀ k, ((link_tree_traversal_layers links world).getD k []).Nodup) ∧
    findRoot links = some world := by
  have hF0 : (List.range links.length).filter (fun i => decide (depth i = 0)) =
      [world] := by
    have hcongr : ∀ x ∈ List.range links.length,
        (decide (depth x = 0)) = (decide (x = world)) := by
      intro x hx
      apply decide_eq_decide.mpr
      constructor
      · exact depth_zero_world links world depth hpar hds x (List.mem_range.mp hx)
      · rintro rfl
        exact hd0
    rw [List.filter_congr hcongr]
    exact filter_decide_eq_of_nodup _ world (List.nodup_range _)
      (List.mem_range.mpr hw)
  obtain ⟨K, hK0, hrun, hempty⟩ :=
    buildLayers_run links world depth hwp hpres hpar hd0 hds (links.length + 1) 0
      (by omega)
  have hlayers : link_tree_traversal_layers links world =
      (List.range (K + 1)).map (fun m =>
        (List.range links.length).filter (fun i => decide (depth i = m))) := by
    unfold link_tree_traversal_layers
    have h1 : ([[world]] : List (List ℕ)) =
        (List.range (0 + 1)).map (fun m =>
          (List.range links.length).filter (fun i => decide (depth i = m))) := by
      rw [show List.range (0 + 1) = [0] from rfl]
      simp [hF0]
    have h2 : ([world] : List ℕ) =
        (List.range links.length).filter (fun i => decide (depth i = 0)) := hF0.symm
    rw [h1, h2]
    exact hrun
  have hgetD : ∀ m, (link_tree_traversal_layers links world).getD m [] =
      if m < K + 1 then
        (List.range links.length).filter (fun i => decide (depth i = m))
      else [] := by
    intro m
    rw [hlayers, List.getD_eq_get?, List.get?_map]
    by_cases hm : m < K + 1
    · rw [List.get?_range hm]
      simp [hm]
    · rw [List.get?_eq_none.mpr (by simp only [List.length_range]; omega)]
      simp [hm]
  have hnone_above : ∀ d j, j < links.length → depth j ≠ K + 1 + d := by
    intro d
    induction d with
    | zero =>
      intro j hj hdj
      have hmem : j ∈ (List.range links.length).filter
          (fun i => decide (depth i = K + 1)) :=
        List.mem_filter.mpr ⟨List.mem_range.mpr hj, decide_eq_true_eq.mpr (by omega)⟩
      rw [hempty] at hmem
      exact absurd hmem (List.not_mem_nil j)
    | succ e ihe =>
      intro j hj hdj
      have hne : j ≠ world := by
        intro he
        rw [he, hd0] at hdj
        omega
      have hp := hpar j hj hne
      cases hq : linkParent links j with
      | none =>
        rw [hq] at hp
        exact hp
      | some p =>
        rw [hq] at hp
        have hs := hds j hj
        rw [hq] at hs
        have hs' : depth j = depth p + 1 := hs
        exact ihe p hp (by omega)
  have hchar : ∀ m i, i ∈ (link_tree_traversal_layers links world).getD m [] ↔
      (i < links.length ∧ depth i = m) := by
    intro m i
    rw [hgetD m]
    by_cases hm : m < K + 1
    · rw [if_pos hm]
      simp [List.mem_filter, List.mem_range]
    · rw [if_neg hm]
      simp only [List.not_mem_nil, false_iff]
      rintro ⟨hi, hdi⟩
      exact hnone_above (m - (K + 1)) i hi (by omega)
  refine ⟨?_, ?_, ?_, ?_, ?_⟩
  · intro i hi
    refine ⟨depth i, (hchar _ i).mpr ⟨hi, rfl⟩, ?_⟩
    intro k hk
    exact ((hchar k i).mp hk).2.symm
  · rw [hgetD 0, if_pos (by omega)]
    exact hF0
  · intro k i
    rw [hchar (k + 1) i]
    constructor
    · rintro ⟨hi, hdi⟩
      have hne : i ≠ world := by
        intro he
        rw [he, hd0] at hdi
        omega
      have hp := hpar i hi hne
      cases hq : linkParent links i with
      | none =>
        rw [hq] at hp
        exact hp.elim
      | some p =>
        rw [hq] at hp
        have hs := hds i hi
        rw [hq] at hs
        have hs' : depth i = depth p + 1 := hs
        obtain ⟨l, hl, hlp⟩ : ∃ l, links.get? i = some l ∧
            l.preceding_link_idx = some p := by
          unfold linkParent at hq
          cases hgl : links.get? i with
          | none =>
            rw [hgl] at hq
            simp at hq
          | some l =>
            rw [hgl] at hq
            simp at hq
            exact ⟨l, rfl, hq⟩
        exact ⟨l, p, hl, hlp, (hchar k p).mpr ⟨hp, by omega⟩⟩
    · rintro ⟨l, p, hl, hlp, hpk⟩
      obtain ⟨hi, -⟩ := List.get?_eq_some.mp hl
      have hq : linkParent links i = some p := by
        unfold linkParent
        rw [hl]
        exact hlp
      have hs := hds i hi
      rw [hq] at hs
      have hs' : depth i = depth p + 1 := hs
      obtain ⟨hplt, hpd⟩ := (hchar k p).mp hpk
      exact ⟨hi, by omega⟩
  · intro k
    rw [hgetD k]
    by_cases hm : k < K + 1
    · rw [if_pos hm]
      exact (List.nodup_range _).filter _
    · rw [if_neg hm]
      exact List.nodup_nil
  · unfold findRoot
    apply find?_eq_some_of_unique _ world (List.mem_range.mpr hw)
    · show (linkParent links world).isNone = true
      rw [hwp]
      rfl
    · intro x hx hpx
      by_contra hne
      have hp := hpar x (List.mem_range.mp hx) hne
      cases hq : linkParent links x with
      | none =>
        rw [hq] at hp
        exact hp
      | some p =>
        rw [hq] at hpx
        simp at hpx

/-- C4 witness: the claim evaluated on the three-link chain fixture rooted at
link 0, with the identity depth function: layer 0 is exactly the root. -/
theorem claim_C4_witness :
    (link_tree_traversal_layers linksFixtureA 0).getD 0 [] = [0] :=
  (claim_C4_traversal_layers linksFixtureA 0 (fun i => i)
    (by decide)
    (by decide)
    (by decide)
    (by
      intro i hi hne
      have h3 : i < 3 := hi
      interval_cases i
      · exact absurd rfl hne
      · exact (by decide : (0 : ℕ) < linksFixtureA.length)
      · exact (by decide : (1 : ℕ) < linksFixtureA.length))
    rfl
    (by
      intro i hi
      have h3 : i < 3 := hi
      interval_cases i
      · exact trivial
      · rfl
      · rfl)).2.1

lemma rot_multiplyFuel_succ {RM UQ : Type} (ops : RotOps RM UQ) (fuel : ℕ)
    (a b : OptimaRotation RM UQ) (conv : Bool) :
    OptimaRotation.multiplyFuel ops (fuel + 1) a b conv =
      if a.get_rotation_type ≠ b.get_rotation_type then
        if conv then
          OptimaRotation.multiplyFuel ops fuel a
            (b.convert ops a.get_rotation_type) conv
        else some (.error .genericError)
      else
        match a, b with
        | .rotationMatrix data0 _, .rotationMatrix data _ =>
          some (.ok (OptimaRotation.new_rotation_matrix (ops.rmMul data0 data)))
        | .unitQuaternion data0 _, .unitQuaternion data _ =>
          some (.ok (OptimaRotation.new_unit_quaternion (ops.uqMul data0 data)))
        | _, _ => some (.error .genericError) := rfl

lemma rot_multiply_eq_fuel {RM UQ : Type} (ops : RotOps RM UQ)
    (a b : OptimaRotation RM UQ) (conv : Bool) :
    OptimaRotation.multiply ops a b conv =
      OptimaRotation.multiplyFuel ops (1 + 1) a b conv := rfl

lemma rot_multiplyFuel_same_tag {RM UQ : Type} (ops : RotOps RM UQ) (fuel : ℕ)
    (a b : OptimaRotation RM UQ) (conv : Bool)
    (ha : a.wf = true) (hb : b.wf = true)
    (htag : a.get_rotation_type = b.get_rotation_type) :
    ∃ r, OptimaRotation.multiplyFuel ops (fuel + 1) a b conv = some (.ok r) ∧
      r.get_rotation_type = a.get_rotation_type ∧ r.wf = true := by
  rw [rot_multiplyFuel_succ, if_neg (not_not_intro htag)]
  cases a with
  | rotationMatrix da ta =>
    have hta : ta = .rotationMatrix := by
      simpa [OptimaRotation.wf] using ha
    cases b with
    | rotationMatrix db tb =>
      exact ⟨OptimaRotation.new_rotation_matrix (ops.rmMul da db), rfl,
        by simp [OptimaRotation.new_rotation_matrix,
          OptimaRotation.get_rotation_type, hta],
        by simp [OptimaRotation.new_rotation_matrix, OptimaRotation.wf]⟩
    | unitQuaternion db tb =>
      have htb : tb = .unitQuaternion := by
        simpa [OptimaRotation.wf] using hb
      rw [OptimaRotation.get_rotation_type, OptimaRotation.get_rotation_type,
        hta, htb] at htag
      exact absurd htag (by decide)
  | unitQuaternion da ta =>
    have hta : ta = .unitQuaternion := by
      simpa [OptimaRotation.wf] using ha
    cases b with
    | rotationMatrix db tb =>
      have htb : tb = .rotationMatrix := by
        simpa [OptimaRotation.wf] using hb
      rw [OptimaRotation.get_rotation_type, OptimaRotation.get_rotation_type,
        hta, htb] at htag
      exact absurd htag (by decide)
    | unitQuaternion db tb =>
      exact ⟨OptimaRotation.new_unit_quaternion (ops.uqMul da db), rfl,
        by simp [OptimaRotation.new_unit_quaternion,
          OptimaRotation.get_rotation_type, hta],
        by simp [OptimaRotation.new_unit_quaternion, OptimaRotation.wf]⟩

lemma rot_convert_wf {RM UQ : Type} (ops : RotOps RM UQ)
    (b : OptimaRotation RM UQ) (t : OptimaRotationType) (hb : b.wf = true) :
    (b.convert ops t).wf = true ∧ (b.convert ops t).get_rotation_type = t := by
  cases b with
  | rotationMatrix db tb =>
    have htb : tb = .rotationMatrix := by
      simpa [OptimaRotation.wf] using hb
    cases t <;>
      simp [OptimaRotation.convert, OptimaRotation.new_unit_quaternion,
        OptimaRotation.new_rotation_matrix, OptimaRotation.wf,
        OptimaRotation.get_rotation_type, htb]
  | unitQuaternion db tb =>
    have htb : tb = .unitQuaternion := by
      simpa [OptimaRotation.wf] using hb
    cases t <;>
      simp [OptimaRotation.convert, OptimaRotation.new_unit_quaternion,
        OptimaRotation.new_rotation_matrix, OptimaRotation.wf,
        OptimaRotation.get_rotation_type, htb]

lemma rot_multiply_cases {RM UQ : Type} (ops : RotOps RM UQ)
    (a b : OptimaRotation RM UQ) (conv : Bool)
    (ha : a.wf = true) (hb : b.wf = true) :
    (a.get_rotation_type ≠ b.get_rotation_type → conv = false →
       OptimaRotation.multiply ops a b conv = some (.error .genericError)) ∧
    (conv = true → ∃ r, OptimaRotation.multiply ops a b true = some (.ok r) ∧
       r.get_rotation_type = a.get_rotation_type) ∧
    (a.get_rotation_type = b.get_rotation_type → ∃ r,
       OptimaRotation.multiply ops a b conv = some (.ok r) ∧
       r.get_rotation_type = a.get_rotation_type) := by
  refine ⟨?_, ?_, ?_⟩
  · intro htag hconv
    subst hconv
    rw [rot_multiply_eq_fuel, rot_multiplyFuel_succ, if_pos htag]
    rfl
  · intro hconv
    subst hconv
    by_cases htag : a.get_rotation_type = b.get_rotation_type
    · obtain ⟨r, hr, hrt, -⟩ :=
        rot_multiplyFuel_same_tag ops 1 a b true ha hb htag
      exact ⟨r, by rw [rot_multiply_eq_fuel, hr], hrt⟩
    · obtain ⟨hcwf, hct⟩ := rot_convert_wf ops b a.get_rotation_type hb
      obtain ⟨r, hr, hrt, -⟩ :=
        rot_multiplyFuel_same_tag ops 0 a (b.convert ops a.get_rotation_type)
          true ha hcwf hct.symm
      refine ⟨r, ?_, hrt⟩
      rw [rot_multiply_eq_fuel, rot_multiplyFuel_succ, if_pos htag, if_pos rfl]
      exact hr
  · intro htag
    obtain ⟨r, hr, hrt, -⟩ :=
      rot_multiplyFuel_same_tag ops 1 a b conv ha hb htag
    exact ⟨r, by rw [rot_multiply_eq_fuel, hr], hrt⟩

lemma rot_eq_rm_of_tag {RM UQ : Type} (r : OptimaRotation RM UQ)
    (hwf : r.wf = true) (ht : r.get_rotation_type = .rotationMatrix) :
    ∃ d, r = OptimaRotation.rotationMatrix d .rotationMatrix := by
  cases r with
  | rotationMatrix d t =>
    have : t = .rotationMatrix := by simpa [OptimaRotation.wf] using hwf
    exact ⟨d, by rw [this]⟩
  | unitQuaternion d t =>
    have h1 : t = .unitQuaternion := by simpa [OptimaRotation.wf] using hwf
    rw [OptimaRotation.get_rotation_type, h1] at ht
    exact absurd ht (by decide)

lemma rot_eq_uq_of_tag {RM UQ : Type} (r : OptimaRotation RM UQ)
    (hwf : r.wf = true) (ht : r.get_rotation_type = .unitQuaternion) :
    ∃ d, r = OptimaRotation.unitQuaternion d .unitQuaternion := by
  cases r with
  | rotationMatrix d t =>
    have h1 : t = .rotationMatrix := by simpa [OptimaRotation.wf] using hwf
    rw [OptimaRotation.get_rotation_type, h1] at ht
    exact absurd ht (by decide)
  | unitQuaternion d t =>
    have : t = .unitQuaternion := by simpa [OptimaRotation.wf] using hwf
    exact ⟨d, by rw [this]⟩

lemma pose_multiplyFuel_succ {IDQ HM RM UQ V3 : Type} (ops : SE3Ops IDQ HM RM UQ V3)
    (fuel : ℕ) (a b : OptimaSE3Pose IDQ HM RM UQ V3) (conv : Bool) :
    OptimaSE3Pose.multiplyFuel ops (fuel + 1) a b conv =
      if a.get_pose_type ≠ b.get_pose_type then
        if conv then
          OptimaSE3Pose.multiplyFuel ops fuel a
            (b.convert ops a.get_pose_type) conv
        else some (.error .genericError)
      else
        match a, b with
        | .implicitDualQuaternion data0 _, .implicitDualQuaternion data _ =>
          some (.ok (OptimaSE3Pose.new_implicit_dual_quaternion (ops.idqMulSC data0 data)))
        | .homogeneousMatrix data0 _, .homogeneousMatrix data _ =>
          some (.ok (OptimaSE3Pose.new_homogeneous_matrix (ops.hmMul data0 data)))
        | .rotationAndTranslation data0 _, .rotationAndTranslation data _ =>
          (match RotationAndTranslation.multiply ops data0 data conv with
           | none => none
           | some (.error e) => some (.error e)
           | some (.ok r) =>
             some (.ok (OptimaSE3Pose.new_rotation_and_translation r)))
        | _, _ => some (.error .genericError) := rfl

lemma pose_multiply_eq_fuel {IDQ HM RM UQ V3 : Type} (ops : SE3Ops IDQ HM RM UQ V3)
    (a b : OptimaSE3Pose IDQ HM RM UQ V3) (conv : Bool) :
    OptimaSE3Pose.multiply ops a b conv =
      OptimaSE3Pose.multiplyFuel ops (1 + 1) a b conv := rfl

lemma pose_multiplyFuel_succ_idq_eq {IDQ HM RM UQ V3 : Type}
    (ops : SE3Ops IDQ HM RM UQ V3) (fuel : ℕ) (d0 d1 : IDQ)
    (t0 t1 : OptimaSE3PoseType) (conv : Bool) (htag : t0 = t1) :
    OptimaSE3Pose.multiplyFuel ops (fuel + 1)
        (.implicitDualQuaternion d0 t0)
        (@OptimaSE3Pose.implicitDualQuaternion IDQ HM RM UQ V3 d1 t1) conv =
      some (.ok (OptimaSE3Pose.new_implicit_dual_quaternion (ops.idqMulSC d0 d1))) := by
  subst htag
  cases t0 <;> rfl

lemma pose_multiplyFuel_succ_hm_eq {IDQ HM RM UQ V3 : Type}
    (ops : SE3Ops IDQ HM RM UQ V3) (fuel : ℕ) (d0 d1 : HM)
    (t0 t1 : OptimaSE3PoseType) (conv : Bool) (htag : t0 = t1) :
    OptimaSE3Pose.multiplyFuel ops (fuel + 1)
        (.homogeneousMatrix d0 t0)
        (@OptimaSE3Pose.homogeneousMatrix IDQ HM RM UQ V3 d1 t1) conv =
      some (.ok (OptimaSE3Pose.new_homogeneous_matrix (ops.hmMul d0 d1))) := by
  subst htag
  cases t0 <;> rfl

lemma pose_multiplyFuel_succ_rt_eq {IDQ HM RM UQ V3 : Type}
    (ops : SE3Ops IDQ HM RM UQ V3) (fuel : ℕ)
    (d0 d1 : RotationAndTranslation RM UQ V3)
    (t0 t1 : OptimaSE3PoseType) (conv : Bool) (htag : t0 = t1) :
    OptimaSE3Pose.multiplyFuel ops (fuel + 1)
        (@OptimaSE3Pose.rotationAndTranslation IDQ HM RM UQ V3 d0 t0)
        (.rotationAndTranslation d1 t1) conv =
      (match RotationAndTranslation.multiply ops d0 d1 conv with
       | none => none
       | some (.error e) => some (.error e)
       | some (.ok r) =>
         some (.ok (OptimaSE3Pose.new_rotation_and_translation r))) := by
  subst htag
  cases t0 <;> rfl

lemma rt_multiply_same_rot_tag {IDQ HM RM UQ V3 : Type}
    (ops : SE3Ops IDQ HM RM UQ V3)
    (d0 d1 : RotationAndTranslation RM UQ V3) (conv : Bool)
    (h0 : d0.rotation.wf = true) (h1 : d1.rotation.wf = true)
    (htag : d0.rotation.get_rotation_type = d1.rotation.get_rotation_type) :
    ∃ r : RotationAndTranslation RM UQ V3,
      RotationAndTranslation.multiply ops d0 d1 conv = some (.ok r) ∧
      r.rotation.get_rotation_type = d0.rotation.get_rotation_type ∧
      r.rotation.wf = true := by
  obtain ⟨r, hr, hrt, hrwf⟩ :=
    rot_multiplyFuel_same_tag ops.toRotOps 1 d0.rotation d1.rotation conv h0 h1 htag
  refine ⟨⟨r, ops.v3Add
      (OptimaRotation.multiply_by_point ops.rmApply ops.uqApply d0.rotation
        d1.translation) d0.translation⟩, ?_, hrt, hrwf⟩
  unfold RotationAndTranslation.multiply
  rw [rot_multiply_eq_fuel, hr]

lemma pose_wf_rt {IDQ HM RM UQ V3 : Type}
    (d : RotationAndTranslation RM UQ V3) (t : OptimaSE3PoseType)
    (h : (@OptimaSE3Pose.rotationAndTranslation IDQ HM RM UQ V3 d t).wf = true) :
    d.rotation.wf = true ∧
      (((∃ x, d.rotation = OptimaRotation.rotationMatrix x .rotationMatrix) ∧
          t = .rotationMatrixAndTranslation) ∨
       ((∃ x, d.rotation = OptimaRotation.unitQuaternion x .unitQuaternion) ∧
          t = .unitQuaternionAndTranslation)) := by
  unfold OptimaSE3Pose.wf at h
  rw [Bool.and_eq_true] at h
  obtain ⟨hr, hm⟩ := h
  refine ⟨hr, ?_⟩
  cases hrv : d.rotation with
  | rotationMatrix x tx =>
    rw [hrv] at hr hm
    have htx : tx = .rotationMatrix := by
      simpa [OptimaRotation.wf] using hr
    subst htx
    left
    refine ⟨⟨x, rfl⟩, ?_⟩
    simpa using hm
  | unitQuaternion x tx =>
    rw [hrv] at hr hm
    have htx : tx = .unitQuaternion := by
      simpa [OptimaRotation.wf] using hr
    subst htx
    right
    refine ⟨⟨x, rfl⟩, ?_⟩
    simpa using hm

lemma pose_convert_wf {IDQ HM RM UQ V3 : Type} (ops : SE3Ops IDQ HM RM UQ V3)
    (b : OptimaSE3Pose IDQ HM RM UQ V3) (t : OptimaSE3PoseType)
    (hb : b.wf = true) :
    (b.convert ops t).wf = true ∧ (b.convert ops t).get_pose_type = t := by
  cases b with
  | implicitDualQuaternion d tb =>
    cases t <;>
      simp [OptimaSE3Pose.convert, OptimaSE3Pose.new_implicit_dual_quaternion,
        OptimaSE3Pose.new_homogeneous_matrix,
        OptimaSE3Pose.new_rotation_and_translation, OptimaSE3Pose.wf,
        OptimaSE3Pose.get_pose_type, OptimaRotation.new_unit_quaternion,
        OptimaRotation.new_rotation_matrix, OptimaRotation.wf]
  | homogeneousMatrix d tb =>
    cases t <;>
      simp [OptimaSE3Pose.convert, OptimaSE3Pose.new_implicit_dual_quaternion,
        OptimaSE3Pose.new_homogeneous_matrix,
        OptimaSE3Pose.new_rotation_and_translation, OptimaSE3Pose.wf,
        OptimaSE3Pose.get_pose_type, OptimaRotation.new_unit_quaternion,
        OptimaRotation.new_rotation_matrix, OptimaRotation.wf]
  | rotationAndTranslation d tb =>
    obtain ⟨hrwf, -⟩ := pose_wf_rt d tb hb
    cases t with
    | implicitDualQuaternion =>
      simp [OptimaSE3Pose.convert, OptimaSE3Pose.new_implicit_dual_quaternion,
        OptimaSE3Pose.wf, OptimaSE3Pose.get_pose_type]
    | homogeneousMatrix =>
      simp [OptimaSE3Pose.convert, OptimaSE3Pose.new_homogeneous_matrix,
        OptimaSE3Pose.wf, OptimaSE3Pose.get_pose_type]
    | unitQuaternionAndTranslation =>
      obtain ⟨hcwf, hct⟩ := rot_convert_wf ops.toRotOps d.rotation .unitQuaternion hrwf
      obtain ⟨x, hx⟩ := rot_eq_uq_of_tag _ hcwf hct
      constructor
      · simp [OptimaSE3Pose.convert, OptimaSE3Pose.new_rotation_and_translation,
          hx, OptimaSE3Pose.wf, OptimaRotation.wf]
      · simp [OptimaSE3Pose.convert, OptimaSE3Pose.new_rotation_and_translation,
          hx, OptimaSE3Pose.get_pose_type]
    | rotationMatrixAndTranslation =>
      obtain ⟨hcwf, hct⟩ := rot_convert_wf ops.toRotOps d.rotation .rotationMatrix hrwf
      obtain ⟨x, hx⟩ := rot_eq_rm_of_tag _ hcwf hct
      constructor
      · simp [OptimaSE3Pose.convert, OptimaSE3Pose.new_rotation_and_translation,
          hx, OptimaSE3Pose.wf, OptimaRotation.wf]
      · simp [OptimaSE3Pose.convert, OptimaSE3Pose.new_rotation_and_translation,
          hx, OptimaSE3Pose.get_pose_type]

lemma pose_multiplyFuel_same_tag {IDQ HM RM UQ V3 : Type}
    (ops : SE3Ops IDQ HM RM UQ V3) (fuel : ℕ)
    (a b : OptimaSE3Pose IDQ HM RM UQ V3) (conv : Bool)
    (ha : a.wf = true) (hb : b.wf = true)
    (htag : a.get_pose_type = b.get_pose_type) :
    ∃ r, OptimaSE3Pose.multiplyFuel ops (fuel + 1) a b conv = some (.ok r) ∧
      r.get_pose_type = a.get_pose_type ∧ r.wf = true := by
  cases a with
  | implicitDualQuaternion d0 t0 =>
    have ht0 : t0 = .implicitDualQuaternion := by
      simpa [OptimaSE3Pose.wf] using ha
    cases b with
    | implicitDualQuaternion d1 t1 =>
      refine ⟨OptimaSE3Pose.new_implicit_dual_quaternion (ops.idqMulSC d0 d1),
        pose_multiplyFuel_succ_idq_eq ops fuel d0 d1 t0 t1 conv ?_, ?_, ?_⟩
      · have ht1 : t1 = .implicitDualQuaternion := by
          simpa [OptimaSE3Pose.wf] using hb
        rw [ht0, ht1]
      · simp [OptimaSE3Pose.new_implicit_dual_quaternion,
          OptimaSE3Pose.get_pose_type, ht0]
      · simp [OptimaSE3Pose.new_implicit_dual_quaternion, OptimaSE3Pose.wf]
    | homogeneousMatrix d1 t1 =>
      have ht1 : t1 = .homogeneousMatrix := by
        simpa [OptimaSE3Pose.wf] using hb
      rw [OptimaSE3Pose.get_pose_type, OptimaSE3Pose.get_pose_type, ht0, ht1] at htag
      exact absurd htag (by decide)
    | rotationAndTranslation d1 t1 =>
      obtain ⟨-, hvar⟩ := pose_wf_rt d1 t1 hb
      rcases hvar with ⟨-, ht1⟩ | ⟨-, ht1⟩ <;>
        (rw [OptimaSE3Pose.get_pose_type, OptimaSE3Pose.get_pose_type, ht0, ht1] at htag;
         exact absurd htag (by decide))
  | homogeneousMatrix d0 t0 =>
    have ht0 : t0 = .homogeneousMatrix := by
      simpa [OptimaSE3Pose.wf] using ha
    cases b with
    | implicitDualQuaternion d1 t1 =>
      have ht1 : t1 = .implicitDualQuaternion := by
        simpa [OptimaSE3Pose.wf] using hb
      rw [OptimaSE3Pose.get_pose_type, OptimaSE3Pose.get_pose_type, ht0, ht1] at htag
      exact absurd htag (by decide)
    | homogeneousMatrix d1 t1 =>
      refine ⟨OptimaSE3Pose.new_homogeneous_matrix (ops.hmMul d0 d1),
        pose_multiplyFuel_succ_hm_eq ops fuel d0 d1 t0 t1 conv ?_, ?_, ?_⟩
      · have ht1 : t1 = .homogeneousMatrix := by
          simpa [OptimaSE3Pose.wf] using hb
        rw [ht0, ht1]
      · simp [OptimaSE3Pose.new_homogeneous_matrix,
          OptimaSE3Pose.get_pose_type, ht0]
      · simp [OptimaSE3Pose.new_homogeneous_matrix, OptimaSE3Pose.wf]
    | rotationAndTranslation d1 t1 =>
      obtain ⟨-, hvar⟩ := pose_wf_rt d1 t1 hb
      rcases hvar with ⟨-, ht1⟩ | ⟨-, ht1⟩ <;>
        (rw [OptimaSE3Pose.get_pose_type, OptimaSE3Pose.get_pose_type, ht0, ht1] at htag;
         exact absurd htag (by decide))
  | rotationAndTranslation d0 t0 =>
    obtain ⟨h0wf, hvar0⟩ := pose_wf_rt d0 t0 ha
    cases b with
    | implicitDualQuaternion d1 t1 =>
      have ht1 : t1 = .implicitDualQuaternion := by
        simpa [OptimaSE3Pose.wf] using hb
      rcases hvar0 with ⟨-, ht0⟩ | ⟨-, ht0⟩ <;>
        (rw [OptimaSE3Pose.get_pose_type, OptimaSE3Pose.get_pose_type, ht0, ht1] at htag;
         exact absurd htag (by decide))
    | homogeneousMatrix d1 t1 =>
      have ht1 : t1 = .homogeneousMatrix := by
        simpa [OptimaSE3Pose.wf] using hb
      rcases hvar0 with ⟨-, ht0⟩ | ⟨-, ht0⟩ <;>
        (rw [OptimaSE3Pose.get_pose_type, OptimaSE3Pose.get_pose_type, ht0, ht1] at htag;
         exact absurd htag (by decide))
    | rotationAndTranslation d1 t1 =>
      obtain ⟨h1wf, hvar1⟩ := pose_wf_rt d1 t1 hb
      have hteq : t0 = t1 := by
        rw [OptimaSE3Pose.get_pose_type, OptimaSE3Pose.get_pose_type] at htag
        exact htag
      have hrtag : d0.rotation.get_rotation_type = d1.rotation.get_rotation_type := by
        rcases hvar0 with ⟨⟨x0, hx0⟩, ht0⟩ | ⟨⟨x0, hx0⟩, ht0⟩ <;>
          rcases hvar1 with ⟨⟨x1, hx1⟩, ht1⟩ | ⟨⟨x1, hx1⟩, ht1⟩ <;>
            first
            | (rw [hx0, hx1]; rfl)
            | (rw [ht0, ht1] at hteq; exact absurd hteq (by decide))
      obtain ⟨r, hr, hrt, hrwf⟩ :=
        rt_multiply_same_rot_tag ops d0 d1 conv h0wf h1wf hrtag
      refine ⟨OptimaSE3Pose.new_rotation_and_translation r, ?_, ?_, ?_⟩
      · rw [pose_multiplyFuel_succ_rt_eq ops fuel d0 d1 t0 t1 conv hteq, hr]
      · rcases hvar0 with ⟨⟨x0, hx0⟩, ht0⟩ | ⟨⟨x0, hx0⟩, ht0⟩
        · have hrt' : r.rotation.get_rotation_type = .rotationMatrix := by
            rw [hrt, hx0]
            rfl
          obtain ⟨y, hy⟩ := rot_eq_rm_of_tag r.rotation hrwf hrt'
          rw [OptimaSE3Pose.get_pose_type, ht0]
          show (@OptimaSE3Pose.new_rotation_and_translation
            IDQ HM RM UQ V3 r).get_pose_type = _
          unfold OptimaSE3Pose.new_rotation_and_translation
          rw [hy]
          rfl
        · have hrt' : r.rotation.get_rotation_type = .unitQuaternion := by
            rw [hrt, hx0]
            rfl
          obtain ⟨y, hy⟩ := rot_eq_uq_of_tag r.rotation hrwf hrt'
          rw [OptimaSE3Pose.get_pose_type, ht0]
          show (@OptimaSE3Pose.new_rotation_and_translation
            IDQ HM RM UQ V3 r).get_pose_type = _
          unfold OptimaSE3Pose.new_rotation_and_translation
          rw [hy]
          rfl
      · unfold OptimaSE3Pose.new_rotation_and_translation
        cases hrv : r.rotation with
        | rotationMatrix y ty =>
          have hty : ty = .rotationMatrix := by
            rw [hrv] at hrwf
            simpa [OptimaRotation.wf] using hrwf
          subst hty
          show (@OptimaSE3Pose.rotationAndTranslation IDQ HM RM UQ V3 r
            OptimaSE3PoseType.rotationMatrixAndTranslation).wf = true
          simp only [OptimaSE3Pose.wf]
          rw [hrv]
          simp [OptimaRotation.wf]
        | unitQuaternion y ty =>
          have hty : ty = .unitQuaternion := by
            rw [hrv] at hrwf
            simpa [OptimaRotation.wf] using hrwf
          subst hty
          show (@OptimaSE3Pose.rotationAndTranslation IDQ HM RM UQ V3 r
            OptimaSE3PoseType.unitQuaternionAndTranslation).wf = true
          simp only [OptimaSE3Pose.wf]
          rw [hrv]
          simp [OptimaRotation.wf]

/-- C8: for well-formed poses and rotations, multiply with mismatched
representation tags and conversion not permitted fails with the
incompatible-representation (generic) error; with conversion permitted it
converts the right operand to the left operand's tag before composing, so it
succeeds and the result always carries the left operand's tag; and with
matching tags it never errors (again yielding the left operand's tag). -/
theorem claim_C8_multiply_tag_dispatch :
    (∀ {IDQ HM RM UQ V3 : Type} (ops : SE3Ops IDQ HM RM UQ V3)
       (a b : OptimaSE3Pose IDQ HM RM UQ V3) (conv : Bool),
       a.wf = true → b.wf = true →
       ((a.get_pose_type ≠ b.get_pose_type → conv = false →
          OptimaSE3Pose.multiply ops a b conv = some (.error .genericError)) ∧
        (conv = true → ∃ r, OptimaSE3Pose.multiply ops a b true = some (.ok r) ∧
          r.get_pose_type = a.get_pose_type) ∧
        (a.get_pose_type = b.get_pose_type → ∃ r,
          OptimaSE3Pose.multiply ops a b conv = some (.ok r) ∧
          r.get_pose_type = a.get_pose_type))) ∧
    (∀ {RM UQ : Type} (rops : RotOps RM UQ)
       (a b : OptimaRotation RM UQ) (conv : Bool),
       a.wf = true → b.wf = true →
       ((a.get_rotation_type ≠ b.get_rotation_type → conv = false →
          OptimaRotation.multiply rops a b conv = some (.error .genericError)) ∧
        (conv = true → ∃ r, OptimaRotation.multiply rops a b true = some (.ok r) ∧
          r.get_rotation_type = a.get_rotation_type) ∧
        (a.get_rotation_type = b.get_rotation_type → ∃ r,
          OptimaRotation.multiply rops a b conv = some (.ok r) ∧
          r.get_rotation_type = a.get_rotation_type))) := by
  constructor
  · intro IDQ HM RM UQ V3 ops a b conv ha hb
    refine ⟨?_, ?_, ?_⟩
    · intro htag hconv
      subst hconv
      rw [pose_multiply_eq_fuel, pose_multiplyFuel_succ, if_pos htag]
      rfl
    · intro hconv
      subst hconv
      by_cases htag : a.get_pose_type = b.get_pose_type
      · obtain ⟨r, hr, hrt, -⟩ :=
          pose_multiplyFuel_same_tag ops 1 a b true ha hb htag
        exact ⟨r, by rw [pose_multiply_eq_fuel, hr], hrt⟩
      · obtain ⟨hcwf, hct⟩ := pose_convert_wf ops b a.get_pose_type hb
        obtain ⟨r, hr, hrt, -⟩ :=
          pose_multiplyFuel_same_tag ops 0 a (b.convert ops a.get_pose_type)
            true ha hcwf hct.symm
        refine ⟨r, ?_, hrt⟩
        rw [pose_multiply_eq_fuel, pose_multiplyFuel_succ, if_pos htag, if_pos rfl]
        exact hr
    · intro htag
      obtain ⟨r, hr, hrt, -⟩ :=
        pose_multiplyFuel_same_tag ops 1 a b conv ha hb htag
      exact ⟨r, by rw [pose_multiply_eq_fuel, hr], hrt⟩
  · intro RM UQ rops a b conv ha hb
    exact rot_multiply_cases rops a b conv ha hb

/-- C8 witness: multiplying an implicit-dual-quaternion pose by a
homogeneous-matrix pose without conversion permission yields the
incompatible-representation error. -/
theorem claim_C8_witness :
    OptimaSE3Pose.multiply unitSE3Ops
        (OptimaSE3Pose.new_implicit_dual_quaternion ())
        (OptimaSE3Pose.new_homogeneous_matrix ()) false =
      some (.error .genericError) :=
  ((claim_C8_multiply_tag_dispatch.1 unitSE3Ops
      (OptimaSE3Pose.new_implicit_dual_quaternion ())
      (OptimaSE3Pose.new_homogeneous_matrix ()) false rfl rfl).1
    (by decide) rfl)

end Optima
